import Mathlib

/-!
Verification development for the `n8n-nodes-template-resolver` templating
engine (lexer, parser, expression evaluator, coercion layer, filters,
interpreter).  Strings are modelled as `List Char`; JavaScript numbers are
modelled as `Int` (the engine is only exercised on integral values here;
fractional / NaN / Infinity float behaviour is outside the model and noted
at each place it could arise).  JavaScript `Map` objects are modelled as
insertion-ordered association lists.
-/

namespace TR

/-- Strings are modelled as lists of characters. -/
abbrev Str := List Char

/-- Convert a Lean string literal into the model's string type. -/
def S (s : String) : Str := s.data

/-- Whitespace test used for `trim`, `\s` and `skipWhitespace`-style checks
(space, tab, newline, carriage return; the full JS whitespace set also has
form feed, vertical tab and unicode spaces, which never occur in this
development). -/
def isWs (c : Char) : Bool :=
  c = ' ' || c = '\t' || c = '\n' || c = '\r'

/-- Model of JavaScript `String.prototype.trim`. -/
def jsTrim (l : Str) : Str :=
  (l.dropWhile isWs).reverse.dropWhile isWs |>.reverse

/-- Clamp one argument of JavaScript `String.prototype.slice`:
negative indices count from the end (`max (len + v) 0`), non-negative
ones are clamped to the length. -/
def jsSliceClamp (len : Nat) (v : Int) : Nat :=
  if v < 0 then ((len : Int) + v).toNat else min v.toNat len

/-- Model of JavaScript `s.slice(a, b)`. -/
def jsSlice (l : Str) (a b : Int) : Str :=
  (l.take (jsSliceClamp l.length b)).drop (jsSliceClamp l.length a)

/-- Model of JavaScript `s.slice(a)` (one-argument form). -/
def jsSliceFrom (l : Str) (a : Int) : Str :=
  jsSlice l a (l.length : Int)

/-- Digit run to a natural number. -/
def digitsToNat (l : Str) : Nat :=
  l.foldl (fun acc c => acc * 10 + (c.toNat - '0'.toNat)) 0

/-- Strict integer-literal parse: optional sign followed by at least one
digit, nothing else.  Used as the model of JavaScript numeric parsing,
restricted to integer literals (fractional, hex and exponent forms are
outside the model: numbers are modelled as `Int`). -/
def parseIntLit (l : Str) : Option Int :=
  match l with
  | [] => none
  | '-' :: rest =>
      if rest ≠ [] && rest.all Char.isDigit then some (-(digitsToNat rest : Int)) else none
  | _ =>
      if l.all Char.isDigit then some (digitsToNat l : Int) else none

/-- Model of JavaScript `Number(s)` on strings: surrounding whitespace is
ignored, the empty (or all-whitespace) string is `0`, integer literals
parse, anything else is NaN (`none`). -/
def jsNumber (l : Str) : Option Int :=
  let t := jsTrim l
  if t = [] then some 0 else parseIntLit t

/-- Model of JavaScript `parseInt(s)`: leading whitespace skipped, optional
sign, then the longest leading digit run; NaN (`none`) if that run is
empty. -/
def jsParseInt (l : Str) : Option Int :=
  let t := l.dropWhile isWs
  match t with
  | '-' :: rest =>
      let ds := rest.takeWhile Char.isDigit
      if ds = [] then none else some (-(digitsToNat ds : Int))
  | _ =>
      let ds := t.takeWhile Char.isDigit
      if ds = [] then none else some (digitsToNat ds : Int)

/-- Render an `Int` the way JavaScript `String(n)` renders an integral
number. -/
def intToStr (n : Int) : Str := (toString n).data

/-- `l.startsWith p` on the model's strings. -/
def startsWithC (l p : Str) : Bool := l.take p.length = p

/-- `l.endsWith p` on the model's strings. -/
def endsWithC (l p : Str) : Bool := l.drop (l.length - p.length) = p

/-- `l.includes c` for a single character. -/
def containsChar (l : Str) (c : Char) : Bool := l.contains c

/-- `String.prototype.split` at a separator character (JS `split(".")`,
`split("|")`): the list of chunks between occurrences of the separator;
always non-empty. -/
def splitOnChar (l : Str) (sep : Char) : List Str :=
  l.splitOn sep

/-- `Array.prototype.join` with a separator string. -/
def joinWith (parts : List Str) (sep : Str) : Str :=
  match parts with
  | [] => []
  | p :: rest => p ++ (rest.map (fun q => sep ++ q)).foldr (· ++ ·) []

/-- Case-insensitive character equality (ASCII, as used by the `i` regex
flag on the keyword operators of the expression language). -/
def charCaseEq (a b : Char) : Bool := a.toLower = b.toLower

/-- Case-insensitive string equality. -/
def strCaseEq (a b : Str) : Bool :=
  a.length = b.length && (a.zip b).all fun p => charCaseEq p.1 p.2

-- ============================================================================
-- Value domain (types.ts `TemplateValue`) and JS `Map` model
-- ============================================================================

/-- The runtime value domain of `types.ts`: `string | number | boolean |
null | undefined | TemplateValue[] | { [key: string]: TemplateValue }`.
Numbers are modelled as `Int`. -/
inductive Value where
  | vNull
  | vUndef
  | vStr (s : Str)
  | vNum (n : Int)
  | vBool (b : Bool)
  | vArr (elems : List Value)
  | vObj (fields : List (Str × Value))
deriving Repr

/-- JavaScript `value == null` (loose equality): true exactly for `null`
and `undefined`. -/
def Value.isNullish : Value → Bool
  | .vNull => true
  | .vUndef => true
  | _ => false

/-- Exactly the JS `undefined` value. -/
def Value.isUndef : Value → Bool
  | .vUndef => true
  | _ => false

/-- A JavaScript `Map<string, TemplateValue>` as an insertion-ordered
association list. -/
abbrev VarMap := List (Str × Value)

/-- `map.has(k)`. -/
def mapHas (m : VarMap) (k : Str) : Bool := m.any fun p => p.1 = k

/-- `map.get(k)` — `undefined` when the key is absent, like JS. -/
def mapGet (m : VarMap) (k : Str) : Value :=
  match m.find? (fun p => p.1 = k) with
  | some p => p.2
  | none => (.vUndef)

/-- `map.set(k, v)`: updates the existing entry in place (JS `Map`
preserves the original insertion position) or appends a new one. -/
def mapSet (m : VarMap) (k : Str) (v : Value) : VarMap :=
  if mapHas m k then m.map (fun p => if p.1 = k then (k, v) else p) else m ++ [(k, v)]

/-- `Array.from(map.keys())`. -/
def mapKeys (m : VarMap) : List Str := m.map Prod.fst

-- ============================================================================
-- Error taxonomy (errors.ts).  Each constructor stores the arguments the
-- corresponding class constructor receives; `formatMessage` is modelled by
-- the stored fields.  `genericError` models a plain `throw new Error(...)`
-- (the filter system's errors).
-- ============================================================================

/-- The thrown-error model for the engine. -/
inductive Err where
  | syntaxError (message : Str) (line column : Nat) (suggestion : Option Str)
  | typeError (message : Str) (line column : Nat) (suggestion : Option Str)
  | missingVariable (variableName : Str) (line column : Nat) (availableVariables : List Str)
  | genericError (message : Str)
deriving Repr, DecidableEq

/-- Reduction of `Except` bind on a success (used to push hypotheses
through `do` blocks). -/
theorem exceptBind_ok {α β : Type} (a : α) (f : α → Except Err β) :
    (Except.ok a : Except Err α) >>= f = f a := rfl

/-- Reduction of `Except` bind on an error. -/
theorem exceptBind_err {α β : Type} (e : Err) (f : α → Except Err β) :
    (Except.error e : Except Err α) >>= f = Except.error e := rfl

-- ============================================================================
-- JSON model: `JSON.parse` (restricted to integer numerals) and
-- `JSON.stringify`.
-- ============================================================================

/-- Skip JSON whitespace. -/
def jsonSkipWs (l : Str) : Str := l.dropWhile isWs

/-- Parse the body of a JSON string after the opening quote, returning the
decoded characters and the remainder after the closing quote.  Escapes
`\" \\ \/ \n \t \r` are handled; other escapes are outside the model. -/
def parseJsonStringBody : Str → Option (Str × Str)
  | [] => none
  | '"' :: rest => some ([], rest)
  | '\\' :: c :: rest => do
      let e ← match c with
        | '"' => some '"'
        | '\\' => some '\\'
        | '/' => some '/'
        | 'n' => some '\n'
        | 't' => some '\t'
        | 'r' => some '\r'
        | _ => none
      let (s, r) ← parseJsonStringBody rest
      pure (e :: s, r)
  | c :: rest => do
      let (s, r) ← parseJsonStringBody rest
      pure (c :: s, r)

/-- Parse a JSON numeral (integer literals only; fractional and exponent
forms are outside the model). -/
def parseJsonNumber (l : Str) : Option (Int × Str) :=
  match l with
  | '-' :: rest =>
      let ds := rest.takeWhile Char.isDigit
      if ds = [] then none else some (-(digitsToNat ds : Int), rest.drop ds.length)
  | _ =>
      let ds := l.takeWhile Char.isDigit
      if ds = [] then none else some ((digitsToNat ds : Int), l.drop ds.length)

mutual

/-- Fuel-indexed JSON value parser (model of `JSON.parse`'s grammar). -/
def parseJsonValue : Nat → Str → Option (Value × Str)
  | 0, _ => none
  | fuel + 1, l =>
    match jsonSkipWs l with
    | '{' :: rest =>
        (match jsonSkipWs rest with
         | '}' :: tail => some (.vObj [], tail)
         | _ => do
             let (fs, r) ← parseJsonMembers fuel rest
             pure (.vObj fs, r))
    | '[' :: rest =>
        (match jsonSkipWs rest with
         | ']' :: tail => some (.vArr [], tail)
         | _ => do
             let (es, r) ← parseJsonItems fuel rest
             pure (.vArr es, r))
    | '"' :: rest => do
        let (s, r) ← parseJsonStringBody rest
        pure (.vStr s, r)
    | 't' :: 'r' :: 'u' :: 'e' :: rest => some (.vBool true, rest)
    | 'f' :: 'a' :: 'l' :: 's' :: 'e' :: rest => some (.vBool false, rest)
    | 'n' :: 'u' :: 'l' :: 'l' :: rest => some (.vNull, rest)
    | other => do
        let (n, r) ← parseJsonNumber other
        pure (.vNum n, r)

/-- Parse the comma-separated items of a JSON array (after `[`). -/
def parseJsonItems : Nat → Str → Option (List Value × Str)
  | 0, _ => none
  | fuel + 1, l => do
      let (v, r) ← parseJsonValue fuel l
      match jsonSkipWs r with
      | ',' :: rest => do
          let (vs, r') ← parseJsonItems fuel rest
          pure (v :: vs, r')
      | ']' :: rest => pure ([v], rest)
      | _ => none

/-- Parse the comma-separated members of a JSON object (after `{`). -/
def parseJsonMembers : Nat → Str → Option (List (Str × Value) × Str)
  | 0, _ => none
  | fuel + 1, l => do
      match jsonSkipWs l with
      | '"' :: rest => do
          let (k, r) ← parseJsonStringBody rest
          match jsonSkipWs r with
          | ':' :: r' => do
              let (v, r'') ← parseJsonValue fuel r'
              match jsonSkipWs r'' with
              | ',' :: rest' => do
                  let (fs, rf) ← parseJsonMembers fuel rest'
                  pure ((k, v) :: fs, rf)
              | '}' :: rest' => pure ([(k, v)], rest')
              | _ => none
          | _ => none
      | _ => none

end

/-- Model of `JSON.parse(s)`: parse one value, require only whitespace to
remain, otherwise fail. -/
def jsonParse (l : Str) : Option Value :=
  match parseJsonValue (l.length + 1) l with
  | some (v, rest) => if jsonSkipWs rest = [] then some v else none
  | none => none

/-- Escape a string for `JSON.stringify` output. -/
def jsonEscapeString (s : Str) : Str :=
  s.foldr
    (fun c acc =>
      (if c = '"' then ['\\', '"']
       else if c = '\\' then ['\\', '\\']
       else if c = '\n' then ['\\', 'n']
       else if c = '\t' then ['\\', 't']
       else if c = '\r' then ['\\', 'r']
       else [c]) ++ acc)
    []

/-- Model of `JSON.stringify` on the value domain.  `vUndef` renders as
`null` (it can only occur nested inside an array here; object fields
holding `undefined` are dropped, as in JS). -/
def jsonStringifyV : Value → Str
  | .vNull => S "null"
  | .vUndef => S "null"
  | .vStr s => '"' :: (jsonEscapeString s ++ ['"'])
  | .vNum n => intToStr n
  | .vBool b => if b then S "true" else S "false"
  | .vArr es =>
      '[' :: (joinWith (es.attach.map fun e => jsonStringifyV e.1) [','] ++ [']'])
  | .vObj fs =>
      '{' ::
        (joinWith
          (((fs.filter fun p => !p.2.isUndef).attach.map
            fun p => '"' :: (jsonEscapeString p.1.1 ++ ['"', ':'] ++ jsonStringifyV p.1.2)))
          [','] ++ ['}'])
decreasing_by
  · have := List.sizeOf_lt_of_mem e.2
    simp only [Value.vArr.sizeOf_spec]
    omega
  · have h1 := List.sizeOf_lt_of_mem (List.mem_of_mem_filter p.2)
    have h2 : sizeOf p.1.2 < sizeOf p.1 := by
      obtain ⟨a, b⟩ := p.1
      simp
    simp only [Value.vObj.sizeOf_spec]
    omega

-- ============================================================================
-- Comma-repair passes (the regex replacements in coercion.ts), each a
-- single left-to-right global pass, replacements not rescanned.
-- ============================================================================

/-- Length bound for `dropWhile`, used in termination arguments. -/
theorem dropWhile_length_le (p : Char → Bool) (l : List Char) :
    (l.dropWhile p).length ≤ l.length := by
  induction l with
  | nil => simp
  | cons c rest ih =>
    by_cases h : p c
    · simp [List.dropWhile, h]; omega
    · simp [List.dropWhile, h]

/-- Length bound for `takeWhile`, used in termination arguments. -/
theorem takeWhile_length_le (p : Char → Bool) (l : List Char) :
    (l.takeWhile p).length ≤ l.length := by
  induction l with
  | nil => simp
  | cons c rest ih =>
    by_cases h : p c
    · simp [List.takeWhile, h]; omega
    · simp [List.takeWhile, h]

/-- `.replace(/,\s*C/g, "C")` for a closing character `C` (fuel-indexed
loop; the wrapper supplies more fuel than the input length, so the zero
case is unreachable). -/
def fixCommaWsCloseGo (close : Char) : Nat → Str → Str
  | 0, l => l
  | _ + 1, [] => []
  | fuel + 1, c :: rest =>
    if c = ',' then
      match rest.dropWhile isWs with
      | d :: tail =>
          if d = close then close :: fixCommaWsCloseGo close fuel tail
          else c :: fixCommaWsCloseGo close fuel rest
      | [] => c :: fixCommaWsCloseGo close fuel rest
    else c :: fixCommaWsCloseGo close fuel rest

/-- `.replace(/,\s*C/g, "C")` for a closing character `C`. -/
def fixCommaWsClose (close : Char) (l : Str) : Str := fixCommaWsCloseGo close (l.length + 1) l

/-- `.replace(/O\s*,/g, "O")` loop. -/
def fixOpenWsCommaGo (op : Char) : Nat → Str → Str
  | 0, l => l
  | _ + 1, [] => []
  | fuel + 1, c :: rest =>
    if c = op then
      match rest.dropWhile isWs with
      | ',' :: tail => c :: fixOpenWsCommaGo op fuel tail
      | _ => c :: fixOpenWsCommaGo op fuel rest
    else c :: fixOpenWsCommaGo op fuel rest

/-- `.replace(/O\s*,/g, "O")` for an opening character `O`. -/
def fixOpenWsComma (op : Char) (l : Str) : Str := fixOpenWsCommaGo op (l.length + 1) l

/-- `.replace(/O,+/g, "O")` loop. -/
def fixOpenCommasGo (op : Char) : Nat → Str → Str
  | 0, l => l
  | _ + 1, [] => []
  | fuel + 1, c :: rest =>
    if c = op then
      match rest.takeWhile (· = ',') with
      | [] => c :: fixOpenCommasGo op fuel rest
      | _ :: _ => c :: fixOpenCommasGo op fuel (rest.drop (rest.takeWhile (· = ',')).length)
    else c :: fixOpenCommasGo op fuel rest

/-- `.replace(/O,+/g, "O")` for an opening character `O`. -/
def fixOpenCommas (op : Char) (l : Str) : Str := fixOpenCommasGo op (l.length + 1) l

/-- `.replace(/,+C/g, "C")` loop (the greedy comma run is absorbed only
when followed by `C`; otherwise no position inside the run can match and
the scan resumes after it). -/
def fixCommasCloseGo (close : Char) : Nat → Str → Str
  | 0, l => l
  | _ + 1, [] => []
  | fuel + 1, c :: rest =>
    if c = ',' then
      let run := (c :: rest).takeWhile (· = ',')
      match (c :: rest).drop run.length with
      | d :: tail =>
          if d = close then close :: fixCommasCloseGo close fuel tail
          else run ++ fixCommasCloseGo close fuel (d :: tail)
      | [] => run
    else c :: fixCommasCloseGo close fuel rest

/-- `.replace(/,+C/g, "C")` for a closing character `C`. -/
def fixCommasClose (close : Char) (l : Str) : Str := fixCommasCloseGo close (l.length + 1) l

/-- `.replace(/,+/g, ",")` loop. -/
def collapseCommasGo : Nat → Str → Str
  | 0, l => l
  | _ + 1, [] => []
  | fuel + 1, c :: rest =>
    if c = ',' then ',' :: collapseCommasGo fuel (rest.dropWhile (· = ','))
    else c :: collapseCommasGo fuel rest

/-- `.replace(/,+/g, ",")`. -/
def collapseCommas (l : Str) : Str := collapseCommasGo (l.length + 1) l

-- ============================================================================
-- Coercion layer (coercion.ts)
-- ============================================================================

/-- `tryCoerceToNumber` from coercion.ts.  `NaN` numbers cannot occur
(numbers are modelled as `Int`). -/
def tryCoerceToNumber : Value → Option Int
  | .vNull => none
  | .vUndef => none
  | .vNum n => some n
  | .vBool b => some (if b then 1 else 0)
  | .vStr s =>
      let trimmed := jsTrim s
      if trimmed = [] then none else jsNumber trimmed
  | .vArr _ => none
  | .vObj _ => none

/-- The quote-aware CSV scanner inside `tryCommaSeparated`: `"` toggles the
quoted state (and is dropped), unquoted commas commit the current token,
tokens are trimmed and empty tokens are skipped. -/
def csvSplitAux : Str → Bool → Str → List Str → List Str
  | [], _, current, result =>
      if jsTrim current ≠ [] then result ++ [jsTrim current] else result
  | c :: rest, inQ, current, result =>
      if c = '"' then csvSplitAux rest (!inQ) current result
      else if c = ',' && !inQ then
        (if jsTrim current ≠ [] then csvSplitAux rest inQ [] (result ++ [jsTrim current])
         else csvSplitAux rest inQ [] result)
      else csvSplitAux rest inQ (current ++ [c]) result

/-- `tryCommaSeparated` from coercion.ts: strip one pair of outer
bracket/brace characters (even mismatched), then split on unquoted
commas. -/
def tryCommaSeparated (value : Str) : Option (List Value) :=
  let content := jsTrim value
  let content :=
    if (startsWithC content (S "[") || startsWithC content (S "\x7b")) &&
       (endsWithC content (S "]") || endsWithC content (S "\x7d")) then
      jsTrim (content.drop 1 |>.dropLast)
    else if startsWithC content (S "[") || startsWithC content (S "\x7b") then
      jsTrim (content.drop 1)
    else if endsWithC content (S "]") || endsWithC content (S "\x7d") then
      jsTrim content.dropLast
    else content
  if !containsChar content ',' then
    if content ≠ [] then some [.vStr content] else none
  else
    let result := csvSplitAux content false [] []
    if result.length > 0 then some (result.map Value.vStr) else none

/-- `tryCoerceToArray` from coercion.ts. -/
def tryCoerceToArray : Value → Option (List Value)
  | .vArr es => some es
  | .vNull => none
  | .vUndef => none
  | .vStr s =>
      let trimmed := jsTrim s
      if startsWithC trimmed (S "[") then
        if !endsWithC trimmed (S "]") then tryCommaSeparated s
        else
          let fixed := fixOpenWsComma '[' (fixCommaWsClose ']' trimmed)
          match jsonParse fixed with
          | some (.vArr es) => some es
          | some _ => none
          | none => tryCommaSeparated s
      else if startsWithC trimmed (S "\x7b") then none
      else tryCommaSeparated s
  | .vObj _ => none
  | .vNum n => some [.vNum n]
  | .vBool b => some [.vBool b]

/-- `tryCoerceToObject` from coercion.ts. -/
def tryCoerceToObject : Value → Option (List (Str × Value))
  | .vNull => none
  | .vUndef => none
  | .vObj fs => some fs
  | .vStr s =>
      let trimmed := jsTrim s
      if startsWithC trimmed (S "\x7b") && endsWithC trimmed (S "\x7d") then
        let fixed :=
          collapseCommas
            (fixCommasClose ']'
              (fixOpenCommas '['
                (fixCommasClose '}'
                  (fixOpenCommas '{' trimmed))))
        match jsonParse fixed with
        | some (.vObj fs) => some fs
        | _ => none
      else none
  | _ => none

/-- Lowercase a string (model of `.toLowerCase()` for the ASCII strings in
play). -/
def toLowerStr (l : Str) : Str := l.map Char.toLower

/-- `tryCoerceToBoolean` from coercion.ts. -/
def tryCoerceToBoolean : Value → Option Bool
  | .vNull => none
  | .vUndef => none
  | .vBool b => some b
  | .vNum n => if n = 1 then some true else if n = 0 then some false else none
  | .vStr s =>
      let t := toLowerStr (jsTrim s)
      if t = S "true" || t = S "yes" || t = S "1" then some true
      else if t = S "false" || t = S "no" || t = S "0" then some false
      else none
  | _ => none

/-- `tryCoerceToString` from coercion.ts (`JSON.stringify` cannot throw on
this value domain, so arrays/objects always stringify). -/
def tryCoerceToString : Value → Option Str
  | .vNull => none
  | .vUndef => none
  | .vStr s => some s
  | .vNum n => some (intToStr n)
  | .vBool b => some (if b then S "true" else S "false")
  | .vArr es => some (jsonStringifyV (.vArr es))
  | .vObj fs => some (jsonStringifyV (.vObj fs))

-- ============================================================================
-- Expression evaluator (expressions.ts)
-- ============================================================================

/-- `isTruthy` from expressions.ts. -/
def isTruthy : Value → Bool
  | .vNull => false
  | .vUndef => false
  | .vStr s =>
      let v := toLowerStr (jsTrim s)
      !(v = [] || v = S "false" || v = S "0" || v = S "no")
  | .vNum n => n ≠ 0
  | .vBool b => b
  | .vArr es => es.length > 0
  | .vObj fs => fs.length > 0

/-- `isBalancedParens` helper loop: running depth, early `false` when it
goes negative, `true` iff it finishes at zero. -/
def isBalancedParensAux : Str → Int → Bool
  | [], depth => depth = 0
  | c :: rest, depth =>
      let d := if c = '(' then depth + 1 else if c = ')' then depth - 1 else depth
      if d < 0 then false else isBalancedParensAux rest d

/-- `isBalancedParens` from expressions.ts. -/
def isBalancedParens (l : Str) : Bool := isBalancedParensAux l 0

/-- JavaScript `String(v)` conversion (used by the `==`/`!=` comparison):
arrays join their elements with commas (nullish elements become empty),
objects render as `[object Object]`. -/
def jsStringOf : Value → Str
  | .vNull => S "null"
  | .vUndef => S "undefined"
  | .vStr s => s
  | .vNum n => intToStr n
  | .vBool b => if b then S "true" else S "false"
  | .vArr es =>
      joinWith (es.attach.map fun e => if e.1.isNullish then [] else jsStringOf e.1) [',']
  | .vObj _ => S "[object Object]"
decreasing_by
  have := List.sizeOf_lt_of_mem e.2
  simp only [Value.vArr.sizeOf_spec]
  omega

/-- Model of JavaScript `s.substring(a, b)` (arguments clamped to the
string and swapped when out of order). -/
def jsSubstring (l : Str) (a b : Nat) : Str :=
  let a' := min a l.length
  let b' := min b l.length
  (l.take (max a' b')).drop (min a' b')

/-- `resolveValue` from expressions.ts: literals, then dot-path lookup with
JSON auto-parsing of string hops and numeric array indices.  Fractional
numeric literals are outside the model (numbers are `Int`). -/
def resolveValue (expr : Str) (vars : VarMap) : Value :=
  if expr = [] then .vNull
  else
    let e := jsTrim expr
    if e = S "true" then .vBool true
    else if e = S "false" then .vBool false
    else if e = S "null" then .vNull
    else
      match parseIntLit e with
      | some n => .vNum n
      | none =>
        if e ≠ [] &&
           ((e.head? = some '"' && e.getLast? = some '"') ||
            (e.head? = some '\'' && e.getLast? = some '\'')) then
          .vStr (jsSubstring e 1 (e.length - 1))
        else
          let path := splitOnChar e '.'
          let root := path.headD []
          let current := mapGet vars root
          go path.tail current
where
  /-- The nested-hop loop of `resolveValue`: per segment, a string value is
  JSON-parsed once (failure aborts with null) and the same iteration then
  performs the property/index access.  A hop landing on a primitive (or on
  `null` produced by the parse, which in JS would crash on the property
  access — outside the model) yields null. -/
  go : List Str → Value → Value
  | [], current => current
  | seg :: rest, current =>
      if current.isNullish then .vNull
      else
        let parsed : Option Value :=
          match current with
          | .vStr s => jsonParse s
          | other => some other
        match parsed with
        | none => .vNull
        | some cur =>
          match cur with
          | .vObj fields =>
              go rest (match fields.find? (fun p => p.1 = seg) with
                       | some p => p.2
                       | none => .vUndef)
          | .vArr elems =>
              go rest (match jsNumber seg with
                       | some n => if 0 ≤ n ∧ n < (elems.length : Int) then elems.getD n.toNat .vUndef
                                   else .vUndef
                       | none => .vUndef)
          | _ => .vNull

/-- The comparison operators of `tryEvaluateComparison`, in the order the
source checks them at each position. -/
def comparisonOps : List Str := [S "==", S "!=", S ">=", S "<=", S ">", S "<"]

/-- The position scan of `tryEvaluateComparison` (fuel-indexed walk):
outside quotes, the first position where one of the operators starts wins
(operators tried in list order at each position); quote state is updated
after the operator check, with backslash-escaped quotes ignored. -/
def findComparisonGo (expr : Str) : Nat → Nat → Bool → Option Char → Option (Nat × Str)
  | 0, _, _, _ => none
  | fuel + 1, i, inQuotes, quoteChar =>
    if i < expr.length then
      let c := expr.getD i ' '
      match (if inQuotes then none
             else comparisonOps.find? (fun op => startsWithC (expr.drop i) op)) with
      | some op => some (i, op)
      | none =>
          let escaped := i > 0 && expr.getD (i - 1) ' ' = '\\'
          if (c = '"' || c = '\'') && !escaped then
            if !inQuotes then findComparisonGo expr fuel (i + 1) true (some c)
            else if some c = quoteChar then findComparisonGo expr fuel (i + 1) false none
            else findComparisonGo expr fuel (i + 1) inQuotes quoteChar
          else findComparisonGo expr fuel (i + 1) inQuotes quoteChar
    else none

/-- The comparison-operator scan started at a position. -/
def findComparison (expr : Str) (i : Nat) (inQuotes : Bool) (quoteChar : Option Char) :
    Option (Nat × Str) :=
  findComparisonGo expr (expr.length + 1) i inQuotes quoteChar

/-- `JSON.stringify` as used inside the TypeError message of
`evaluateNumericComparison` (`undefined` interpolates as the word
`undefined`). -/
def stringifyForMsg (v : Value) : Str :=
  if v.isUndef then S "undefined" else jsonStringifyV v

/-- `evaluateNumericComparison` from expressions.ts: both operands must
coerce to numbers or a TypeError is thrown. -/
def evaluateNumericComparison (left right : Value) (op : Str) : Except Err Bool :=
  match tryCoerceToNumber left, tryCoerceToNumber right with
  | some l, some r =>
      if op = S ">" then .ok (l > r)
      else if op = S "<" then .ok (l < r)
      else if op = S ">=" then .ok (l ≥ r)
      else if op = S "<=" then .ok (l ≤ r)
      else .ok false
  | _, _ =>
      .error (.typeError
        (S "Cannot use operator '" ++ op ++ S "' with non-numeric values: " ++
          stringifyForMsg left ++ [' '] ++ op ++ [' '] ++ stringifyForMsg right)
        1 1
        (some (S "Use isNumber check first: \x7b\x7bIF age isNumber AND age > 18\x7d\x7d")))

/-- `tryEvaluateComparison` from expressions.ts (`none` = no comparison
operator present). -/
def tryEvaluateComparison (expr : Str) (vars : VarMap) : Except Err (Option Bool) :=
  match findComparison expr 0 false none with
  | none => .ok none
  | some (i, op) =>
      let left := resolveValue (jsTrim (expr.take i)) vars
      let right := resolveValue (jsTrim (expr.drop (i + op.length))) vars
      if op = S "==" then .ok (some (jsStringOf left = jsStringOf right))
      else if op = S "!=" then .ok (some (jsStringOf left ≠ jsStringOf right))
      else do
        let b ← evaluateNumericComparison left right op
        pure (some b)

/-- Strip one leading and one trailing quote character (either kind), the
`.replace(/^["']|["']$/g, "")` used on string-operator right sides. -/
def stripQuotes (l : Str) : Str :=
  let l1 := if l.head? = some '"' || l.head? = some '\'' then l.drop 1 else l
  if l1.getLast? = some '"' || l1.getLast? = some '\'' then l1.dropLast else l1

/-- Case-insensitive `startsWith`. -/
def startsWithCI (l p : Str) : Bool := strCaseEq (l.take p.length) p

/-- Substring containment (JS `includes`). -/
def containsSub (l sub : Str) : Bool :=
  (List.range (l.length + 1)).any fun i => startsWithC (l.drop i) sub

/-- Whether the regex `(.+?)\s+OP\s+(.+)` (flag `i`) can match with the
lazy left group of length `j`: a non-empty whitespace run, the operator,
then at least one whitespace and at least one further character.  (`.`
matching newline is a documented simplification of the model.) -/
def stringOpMatchAt (orig op : Str) (j : Nat) : Bool :=
  let restj := orig.drop j
  let run := restj.takeWhile isWs
  run ≠ [] && startsWithCI (restj.drop run.length) op &&
    (let afterOp := restj.drop (run.length + op.length)
     (afterOp.takeWhile isWs) ≠ [] && afterOp.length ≥ 2)

/-- Smallest lazy left-group length `j ≥ 1` at which the string-operator
regex matches (fuel-indexed search). -/
def stringOpFindGo (orig op : Str) : Nat → Nat → Option Nat
  | 0, _ => none
  | fuel + 1, j =>
    if j < orig.length then
      if stringOpMatchAt orig op j then some j else stringOpFindGo orig op fuel (j + 1)
    else none

/-- Smallest lazy left-group length `j ≥ 1` at which the string-operator
regex matches. -/
def stringOpFind (orig op : Str) (j : Nat) : Option Nat :=
  stringOpFindGo orig op (orig.length + 1) j

/-- Evaluate one candidate string operator against the expression. -/
def stringOpEval (expr : Str) (vars : VarMap) (op : Str) : Option Bool :=
  match stringOpFind expr op 1 with
  | none => none
  | some j =>
      let leftValue := resolveValue (jsTrim (expr.take j)) vars
      let restj := expr.drop j
      let run := restj.takeWhile isWs
      let afterOp := restj.drop (run.length + op.length)
      let rightValue := stripQuotes (jsTrim afterOp)
      match tryCoerceToString leftValue with
      | none => some false
      | some leftStr =>
          if op = S "contains" then some (containsSub leftStr rightValue)
          else if op = S "startsWith" then some (startsWithC leftStr rightValue)
          else some (endsWithC leftStr rightValue)

/-- `tryEvaluateStringOp` from expressions.ts: `contains`, `startsWith`,
`endsWith` tried in that order. -/
def tryEvaluateStringOp (expr : Str) (vars : VarMap) : Option Bool :=
  match stringOpEval expr vars (S "contains") with
  | some b => some b
  | none =>
      match stringOpEval expr vars (S "startsWith") with
      | some b => some b
      | none => stringOpEval expr vars (S "endsWith")

/-- Match the regex `(.+?)\s+CHECK$` (flag `i`): the expression must end
with the check word, preceded by a non-empty whitespace run, preceded by
at least one character; returns the left group. -/
def typeCheckMatch (expr check : Str) : Option Str :=
  let k := expr.length - check.length
  if strCaseEq (expr.drop k) check && expr.length ≥ check.length then
    let before := expr.take k
    let run := before.reverse.takeWhile isWs
    if run ≠ [] && before.length > run.length then
      some (before.take (before.length - run.length))
    else none
  else none

/-- The type-check suffix operators, in source order. -/
def typeCheckNames : List Str :=
  [S "isEmpty", S "isNotEmpty", S "isArray", S "isNumber", S "isObject", S "isBoolean"]

/-- Evaluate one type-check operator on a resolved value. -/
def typeCheckEval (check : Str) (value : Value) : Bool :=
  if check = S "isEmpty" then
    match value with
    | .vNull => true
    | .vUndef => true
    | .vStr s => jsTrim s = []
    | .vArr es => es.length = 0
    | .vObj fs => fs.length = 0
    | _ => false
  else if check = S "isNotEmpty" then
    match value with
    | .vNull => false
    | .vUndef => false
    | .vStr s => jsTrim s ≠ []
    | .vArr es => es.length > 0
    | .vObj fs => fs.length > 0
    | _ => true
  else if check = S "isArray" then (tryCoerceToArray value).isSome
  else if check = S "isNumber" then (tryCoerceToNumber value).isSome
  else if check = S "isObject" then (tryCoerceToObject value).isSome
  else (tryCoerceToBoolean value).isSome

/-- `tryEvaluateTypeCheck` from expressions.ts. -/
def tryEvaluateTypeCheck (expr : Str) (vars : VarMap) : Option Bool :=
  go typeCheckNames
where
  go : List Str → Option Bool
  | [] => none
  | check :: rest =>
      match typeCheckMatch expr check with
      | some left => some (typeCheckEval check (resolveValue (jsTrim left) vars))
      | none => go rest

/-- The depth-0 scan of `tryEvaluateLogical` (fuel-indexed): walk
positions `i < length - 3`, updating a paren depth, recording the
rightmost ` OR ` seen at depth 0, and the rightmost ` AND ` seen at depth
0 while no OR has been found yet. -/
def logicalScanAux (expr : Str) : Nat → Nat → Int → Option Nat → Option Nat →
    Option Nat × Option Nat
  | 0, _, _, orPos, andPos => (orPos, andPos)
  | fuel + 1, i, depth, orPos, andPos =>
    if i < expr.length - 3 then
      let c := expr.getD i ' '
      let depth' := if c = '(' then depth + 1 else if c = ')' then depth - 1 else depth
      let atOr := depth' = 0 && (expr.drop i).take 4 = S " OR "
      let atAnd := depth' = 0 && (expr.drop i).take 5 = S " AND "
      let orPos' := if atOr then some i else orPos
      let andPos' := if atAnd && orPos' = none then some i else andPos
      logicalScanAux expr fuel (i + 1) depth' orPos' andPos'
    else (orPos, andPos)

/-- The (orPos, andPos) result of the scan in `tryEvaluateLogical`. -/
def logicalScan (expr : Str) : Option Nat × Option Nat :=
  logicalScanAux expr (expr.length + 1) 0 0 none none

/-- Trimming never lengthens a string. -/
theorem jsTrim_length_le (l : Str) : (jsTrim l).length ≤ l.length := by
  unfold jsTrim
  have h1 := dropWhile_length_le isWs l
  have h2 := dropWhile_length_le isWs (l.dropWhile isWs).reverse
  simp only [List.length_reverse] at *
  omega

/-- A matched prefix bounds the string length from below. -/
theorem startsWithC_length {l p : Str} (h : startsWithC l p = true) :
    p.length ≤ l.length := by
  unfold startsWithC at h
  have := congrArg List.length (of_decide_eq_true h)
  simp at this
  omega

/-- Invariant: a recorded OR position carries the literal ` OR ` slice. -/
def OrSlice (e : Str) (o : Option Nat) : Prop :=
  ∀ q, o = some q → (e.drop q).take 4 = S " OR "

/-- Invariant: a recorded AND position carries the literal ` AND ` slice. -/
def AndSlice (e : Str) (a : Option Nat) : Prop :=
  ∀ q, a = some q → (e.drop q).take 5 = S " AND "

/-- Elimination for an `ite` returning an optional position. -/
theorem ite_some_inv {c : Prop} [Decidable c] {α : Type} {i q : α} {o : Option α}
    (h : (if c then some i else o) = some q) : (c ∧ i = q) ∨ o = some q := by
  split at h
  · exact Or.inl ⟨‹c›, Option.some.inj h⟩
  · exact Or.inr h

/-- The scan loop preserves both slice invariants. -/
theorem logicalScanAux_slices (e : Str) :
    ∀ fuel i d o a, OrSlice e o → AndSlice e a →
      OrSlice e (logicalScanAux e fuel i d o a).1 ∧
      AndSlice e (logicalScanAux e fuel i d o a).2 := by
  intro fuel
  induction fuel with
  | zero =>
    intro i d o a ho ha
    exact ⟨ho, ha⟩
  | succ fuel ih =>
    intro i d o a ho ha
    rw [logicalScanAux]
    by_cases h : i < e.length - 3
    · simp only [h, if_true]
      apply ih
      · intro q hq
        rcases ite_some_inv hq with ⟨hc, hi⟩ | hrest
        · subst hi
          simp only [Bool.and_eq_true, decide_eq_true_eq] at hc
          exact hc.2
        · exact ho q hrest
      · intro q hq
        rcases ite_some_inv hq with ⟨hc, hi⟩ | hrest
        · subst hi
          simp only [Bool.and_eq_true, decide_eq_true_eq] at hc
          exact hc.1.2
        · exact ha q hrest
    · simp only [h, if_false]
      exact ⟨ho, ha⟩

/-- The OR position returned by `logicalScan` sits on a literal ` OR `. -/
theorem logicalScan_or_slice {e : Str} {p : Nat} {a : Option Nat}
    (h : logicalScan e = (some p, a)) : (e.drop p).take 4 = S " OR " := by
  have := (logicalScanAux_slices e (e.length + 1) 0 0 none none
    (fun q hq => by cases hq) (fun q hq => by cases hq)).1
  rw [logicalScan] at h
  rw [h] at this
  exact this p rfl

/-- The AND position returned by `logicalScan` sits on a literal ` AND `. -/
theorem logicalScan_and_slice {e : Str} {o : Option Nat} {p : Nat}
    (h : logicalScan e = (o, some p)) : (e.drop p).take 5 = S " AND " := by
  have := (logicalScanAux_slices e (e.length + 1) 0 0 none none
    (fun q hq => by cases hq) (fun q hq => by cases hq)).2
  rw [logicalScan] at h
  rw [h] at this
  exact this p rfl

/-- A position carrying a 4-character slice is at least 4 from the end. -/
theorem slice_bound4 {e : Str} {p : Nat} (h : (e.drop p).take 4 = S " OR ") :
    p + 4 ≤ e.length := by
  have := congrArg List.length h
  simp [S] at this
  omega

/-- A position carrying a 5-character slice is at least 5 from the end. -/
theorem slice_bound5 {e : Str} {p : Nat} (h : (e.drop p).take 5 = S " AND ") :
    p + 5 ≤ e.length := by
  have := congrArg List.length h
  simp [S] at this
  omega

/-- `evaluateCondition` from expressions.ts: `NOT(...)` unwrapping (only
when the inner parentheses balance), bare `(...)` grouping (same balance
check), rightmost depth-0 ` OR ` split, rightmost depth-0 ` AND ` split
(only recorded while no OR has been seen), comparison operators, string
operators, type checks, and finally bare-operand truthiness.  `||` and
`&&` short-circuit exactly as in JS. -/
def evaluateCondition (condition : Str) (vars : VarMap) : Except Err Bool :=
  let trimmed := jsTrim condition
  if hN : startsWithC trimmed (S "NOT(") = true ∧ endsWithC trimmed (S ")") = true ∧
      isBalancedParens ((trimmed.drop 4).dropLast) = true then
    do
      let b ← evaluateCondition ((trimmed.drop 4).dropLast) vars
      pure (!b)
  else if hP : startsWithC trimmed (S "(") = true ∧ endsWithC trimmed (S ")") = true ∧
      isBalancedParens ((trimmed.drop 1).dropLast) = true then
    evaluateCondition ((trimmed.drop 1).dropLast) vars
  else
    match hS : logicalScan trimmed with
    | (some orPos, _) => do
        let a ← evaluateCondition (jsTrim (trimmed.take orPos)) vars
        if a then pure true
        else evaluateCondition (jsTrim (trimmed.drop (orPos + 4))) vars
    | (none, some andPos) => do
        let a ← evaluateCondition (jsTrim (trimmed.take andPos)) vars
        if a then evaluateCondition (jsTrim (trimmed.drop (andPos + 5))) vars
        else pure false
    | (none, none) => do
        match ← tryEvaluateComparison trimmed vars with
        | some b => pure b
        | none =>
          match tryEvaluateStringOp trimmed vars with
          | some b => pure b
          | none =>
            match tryEvaluateTypeCheck trimmed vars with
            | some b => pure b
            | none => pure (isTruthy (resolveValue trimmed vars))
termination_by condition.length
decreasing_by
  · simp only [show trimmed = jsTrim condition from rfl] at *
    have ht : (jsTrim condition).length ≤ condition.length := jsTrim_length_le condition
    have hs := startsWithC_length hN.1
    simp [S] at hs
    simp
    omega
  · simp only [show trimmed = jsTrim condition from rfl] at *
    have ht : (jsTrim condition).length ≤ condition.length := jsTrim_length_le condition
    have hs := startsWithC_length hP.1
    simp [S] at hs
    simp
    omega
  · simp only [show trimmed = jsTrim condition from rfl] at *
    have ht : (jsTrim condition).length ≤ condition.length := jsTrim_length_le condition
    have hb := slice_bound4 (logicalScan_or_slice hS)
    have h2 := jsTrim_length_le ((jsTrim condition).take orPos)
    simp at h2 ⊢
    omega
  · simp only [show trimmed = jsTrim condition from rfl] at *
    have ht : (jsTrim condition).length ≤ condition.length := jsTrim_length_le condition
    have hb := slice_bound4 (logicalScan_or_slice hS)
    have h2 := jsTrim_length_le ((jsTrim condition).drop (orPos + 4))
    simp at h2 ⊢
    omega
  · simp only [show trimmed = jsTrim condition from rfl] at *
    have ht : (jsTrim condition).length ≤ condition.length := jsTrim_length_le condition
    have hb := slice_bound5 (logicalScan_and_slice hS)
    have h2 := jsTrim_length_le ((jsTrim condition).take andPos)
    simp at h2 ⊢
    omega
  · simp only [show trimmed = jsTrim condition from rfl] at *
    have ht : (jsTrim condition).length ≤ condition.length := jsTrim_length_le condition
    have hb := slice_bound5 (logicalScan_and_slice hS)
    have h2 := jsTrim_length_le ((jsTrim condition).drop (andPos + 5))
    simp at h2 ⊢
    omega

/-- `tryEvaluateLogical` from expressions.ts, expressed with the scan and
the recursive evaluator (`none` = no top-level logical operator). -/
def tryEvaluateLogical (expr : Str) (vars : VarMap) : Except Err (Option Bool) :=
  match logicalScan expr with
  | (some orPos, _) => do
      let a ← evaluateCondition (jsTrim (expr.take orPos)) vars
      if a then pure (some true)
      else do
        let b ← evaluateCondition (jsTrim (expr.drop (orPos + 4))) vars
        pure (some b)
  | (none, some andPos) => do
      let a ← evaluateCondition (jsTrim (expr.take andPos)) vars
      if a then do
        let b ← evaluateCondition (jsTrim (expr.drop (andPos + 5))) vars
        pure (some b)
      else pure (some false)
  | (none, none) => pure none

-- ============================================================================
-- Math expressions (expressions.ts `evaluateMathExpression`).  Division
-- and `%` are modelled by truncated integer division/remainder; JS float
-- quotients, NaN и Infinity are outside the model (no claim involves
-- them).
-- ============================================================================

/-- A math token: a number or an operator/parenthesis character. -/
inductive MathTok where
  | num (n : Int)
  | sym (c : Char)
deriving Repr, DecidableEq

/-- `tokenizeMath` from expressions.ts.  The source's negative-number
lookahead is dead code (a `-` is always consumed as an operator first).
A character matching no token class makes the JS loop spin forever; the
model returns an error there instead. -/
def tokenizeMathAux : Str → VarMap → Except Err (List MathTok)
  | [], _ => .ok []
  | c :: rest, vars =>
    if isWs c then tokenizeMathAux rest vars
    else if c = '+' || c = '-' || c = '*' || c = '/' || c = '%' || c = '(' || c = ')' then do
      let ts ← tokenizeMathAux rest vars
      pure (.sym c :: ts)
    else if hdig : c.isDigit then
      let run := (c :: rest).takeWhile fun d => d.isDigit || d = '.'
      match parseIntLit run with
      | some n => do
          let ts ← tokenizeMathAux ((c :: rest).drop run.length) vars
          pure (.num n :: ts)
      | none => .error (.genericError (S "numeric literal outside the integer model"))
    else
      let run := (c :: rest).takeWhile fun d => d.isAlphanum || d = '_' || d = '@' || d = '.'
      if hrun : run = [] then
        .error (.genericError (S "tokenizer stuck (model of a non-terminating JS loop)"))
      else
        let value := resolveValue run vars
        match tryCoerceToNumber value with
        | none =>
            .error (.typeError
              (S "Cannot use non-numeric value in math expression: " ++ run ++ S " = " ++
                stringifyForMsg value)
              1 1 (some (S "Ensure all variables in math expressions are numbers")))
        | some n => do
            let ts ← tokenizeMathAux ((c :: rest).drop run.length) vars
            pure (.num n :: ts)
termination_by l _ => l.length
decreasing_by
  · simp
  · simp
  · have h1 : ((c :: rest).takeWhile fun d => d.isDigit || d = '.').length ≥ 1 := by
      simp [List.takeWhile, hdig]
    have h2 := takeWhile_length_le (fun d => d.isDigit || d = '.') (c :: rest)
    simp only [List.length_drop, List.length_cons] at *
    omega
  · have h1 : 1 ≤ run.length := by
      cases hr : run with
      | nil => exact absurd hr hrun
      | cons a as => simp [hr]
    have h2 : ((c :: rest).drop run.length).length < (c :: rest).length := by
      simp only [List.length_drop]
      exact Nat.sub_lt (by simp) (by omega)
    exact h2

/-- Index of the last `(` token (JS `lastIndexOf`). -/
def lastIdxOfSym (ts : List MathTok) (c : Char) : Option Nat :=
  (ts.reverse.findIdx? (· = .sym c)).map fun i => ts.length - 1 - i

/-- Index of the first `)` token at or after `start` (JS `indexOf(x, start)`). -/
def idxOfSymFrom (ts : List MathTok) (c : Char) (start : Nat) : Option Nat :=
  ((ts.drop start).findIdx? (· = .sym c)).map (· + start)

/-- One `* / %` combination step (truncated division model). -/
def applyMulOp (c : Char) (a b : Int) : Int :=
  if c = '*' then a * b
  else if c = '/' then a.tdiv b
  else if c = '%' then a.tmod b
  else 0

/-- The `* / %` left-to-right splice pass of `evaluateMathTokens`.
Operands that are not numbers are passed over (in JS they would produce
NaN arithmetic — outside the model). -/
def reduceMulPass : List MathTok → List MathTok
  | .num a :: .sym c :: .num b :: rest =>
      if c = '*' || c = '/' || c = '%' then reduceMulPass (.num (applyMulOp c a b) :: rest)
      else .num a :: reduceMulPass (.sym c :: .num b :: rest)
  | t :: rest => t :: reduceMulPass rest
  | [] => []
termination_by l => l.length
decreasing_by all_goals simp <;> omega

/-- The `+ -` left-to-right splice pass of `evaluateMathTokens`. -/
def reduceAddPass : List MathTok → List MathTok
  | .num a :: .sym c :: .num b :: rest =>
      if c = '+' then reduceAddPass (.num (a + b) :: rest)
      else if c = '-' then reduceAddPass (.num (a - b) :: rest)
      else .num a :: reduceAddPass (.sym c :: .num b :: rest)
  | t :: rest => t :: reduceAddPass rest
  | [] => []
termination_by l => l.length
decreasing_by all_goals simp <;> omega

/-- `evaluateMathTokens` from expressions.ts: innermost parentheses are
collapsed first (last `(`, first following `)`), then the `* / %` pass,
then the `+ -` pass; anything but a single number left over is a
TypeError. -/
def evaluateMathTokens : Nat → List MathTok → Except Err Int
  | 0, _ => .error (.genericError (S "fuel exhausted"))
  | fuel + 1, ts =>
    match lastIdxOfSym ts '(' with
    | some openIdx =>
        (match idxOfSymFrom ts ')' openIdx with
         | none => .error (.typeError (S "Unmatched parentheses in math expression") 1 1 none)
         | some closeIdx => do
             let sub := (ts.drop (openIdx + 1)).take (closeIdx - openIdx - 1)
             let r ← evaluateMathTokens fuel sub
             evaluateMathTokens fuel (ts.take openIdx ++ [.num r] ++ ts.drop (closeIdx + 1)))
    | none =>
        match reduceAddPass (reduceMulPass ts) with
        | [.num n] => .ok n
        | _ => .error (.typeError (S "Invalid math expression") 1 1 none)

/-- `evaluateMathExpression` from expressions.ts. -/
def evaluateMathExpression (expr : Str) (vars : VarMap) : Except Err Int := do
  let ts ← tokenizeMathAux expr vars
  evaluateMathTokens (ts.length + 1) ts

-- ============================================================================
-- Filter system (filters.ts)
-- ============================================================================

/-- A parsed filter call (types.ts `FilterCall`). -/
structure FilterCall where
  name : Str
  params : List (Str × Str)
deriving Repr

/-- Read a key from a `Record<string, string>`. -/
def recGet (params : List (Str × Str)) (k : Str) : Option Str :=
  (params.find? (fun p => p.1 = k)).map Prod.snd

/-- Assign a key in a `Record<string, string>`. -/
def recSet (params : List (Str × Str)) (k v : Str) : List (Str × Str) :=
  if params.any (fun p => p.1 = k) then
    params.map fun p => if p.1 = k then (k, v) else p
  else params ++ [(k, v)]

/-- Unescape `\"` and `\'` (the `.replace(/\\["']/g, m => m[1])` of
`parseParam`). -/
def unescapeQuotes : Str → Str
  | '\\' :: '"' :: rest => '"' :: unescapeQuotes rest
  | '\\' :: '\'' :: rest => '\'' :: unescapeQuotes rest
  | c :: rest => c :: unescapeQuotes rest
  | [] => []

/-- `parseParam` from filters.ts: split at the first `=`, trim both
sides, strip one pair of surrounding quotes, unescape quotes; a chunk
without `=` is ignored. -/
def parseParam (param : Str) (params : List (Str × Str)) : List (Str × Str) :=
  match (List.range param.length).find? (fun i => param.getD i ' ' = '=') with
  | none => params
  | some eqIdx =>
      let key := jsTrim (param.take eqIdx)
      let value := unescapeQuotes (stripQuotes (jsTrim (param.drop (eqIdx + 1))))
      recSet params key value

/-- The quote-aware comma scanner over a named-parameter string: quote
characters toggle the quoted state (unless preceded by a backslash) and
are kept in the token; unquoted commas commit the current token.  (At
index 0 the JS lookback reads `undefined`, never a backslash; the model's
`getD (i-1)` reads the quote itself there, which is also not a
backslash.) -/
def filterParamChunksGo (s : Str) : Nat → Nat → Bool → Char → Str → List Str
  | 0, _, _, _, _ => []
  | fuel + 1, i, inQ, qc, current =>
    if i < s.length then
      let c := s.getD i ' '
      let inQt :=
        if (c = '"' || c = '\'') && s.getD (i - 1) ' ' ≠ '\\' then
          if !inQ then (true, c)
          else if c = qc then (false, qc)
          else (inQ, qc)
        else (inQ, qc)
      if c = ',' && !inQt.1 then
        jsTrim current :: filterParamChunksGo s fuel (i + 1) inQt.1 inQt.2 []
      else
        filterParamChunksGo s fuel (i + 1) inQt.1 inQt.2 (current ++ [c])
    else if jsTrim current ≠ [] then [jsTrim current] else []

/-- The quote-aware comma scanner over a named-parameter string. -/
def filterParamChunks (s : Str) (i : Nat) (inQ : Bool) (qc : Char) (current : Str) :
    List Str :=
  filterParamChunksGo s (s.length + 1) i inQ qc current

/-- `parseFilter` from filters.ts. -/
def parseFilter (filterString : Str) : FilterCall :=
  let trimmed := jsTrim filterString
  if !containsChar trimmed '=' && !containsChar trimmed ':' then
    { name := trimmed, params := [] }
  else if containsChar trimmed '=' && !containsChar trimmed ':' then
    let parts := (splitOnChar trimmed '=').map jsTrim
    { name := parts.headD []
      params := [(S "value", stripQuotes (parts.getD 1 []))] }
  else
    let colonIdx := (List.range trimmed.length).find? (fun i => trimmed.getD i ' ' = ':')
    let colonIdx := colonIdx.getD 0
    let name := jsTrim (trimmed.take colonIdx)
    let paramsStr := trimmed.drop (colonIdx + 1)
    let chunks := filterParamChunks paramsStr 0 false ' ' []
    { name := name, params := chunks.foldl (fun ps chunk => parseParam chunk ps) [] }

/-- `applyHeadFilter` from filters.ts: `!params.value` (absent or empty)
throws; a non-numeric parameter throws; `N >= 0` is `slice(0, N)` and
`N < 0` is `slice(0, len + N)` with JS slice-clamping semantics. -/
def applyHeadFilter (text : Str) (params : List (Str × Str)) : Except Err Str :=
  match recGet params (S "value") with
  | none => .error (.genericError (S "head filter requires parameter (e.g., head=100)"))
  | some v =>
    if v = [] then .error (.genericError (S "head filter requires parameter (e.g., head=100)"))
    else
      match jsNumber v with
      | none => .error (.genericError (S "Invalid head parameter: " ++ v ++ S " (must be a number)"))
      | some length =>
          if length < 0 then .ok (jsSlice text 0 ((text.length : Int) + length))
          else .ok (jsSlice text 0 length)

/-- `applyTailFilter` from filters.ts: `!params.value` throws; non-numeric
throws; `N == 0` is empty, `N < 0` is `slice(|N|)`, `N > 0` is
`slice(-N)`. -/
def applyTailFilter (text : Str) (params : List (Str × Str)) : Except Err Str :=
  match recGet params (S "value") with
  | none => .error (.genericError (S "tail filter requires parameter (e.g., tail=50)"))
  | some v =>
    if v = [] then .error (.genericError (S "tail filter requires parameter (e.g., tail=50)"))
    else
      match jsNumber v with
      | none => .error (.genericError (S "Invalid tail parameter: " ++ v ++ S " (must be a number)"))
      | some length =>
          if length = 0 then .ok []
          else if length < 0 then .ok (jsSliceFrom text (-length))
          else .ok (jsSliceFrom text (-length))

/-- `applyEscapeMdFilter` from filters.ts: double backslashes first, then
escape each other special character in turn. -/
def applyEscapeMdFilter (text : Str) : Str :=
  let specials : Str := ['*', '_', '[', ']', '(', ')', '#', Char.ofNat 96, '>', '~', '|']
  let r0 := text.flatMap fun d => if d = '\\' then ['\\', '\\'] else [d]
  specials.foldl (fun acc c => acc.flatMap fun d => if d = c then ['\\', d] else [d]) r0

/-- `applyFilter` from filters.ts (unknown filter names throw). -/
def applyFilter (text : Str) (filter : FilterCall) : Except Err Str :=
  if filter.name = S "head" then applyHeadFilter text filter.params
  else if filter.name = S "tail" then applyTailFilter text filter.params
  else if filter.name = S "trim" then .ok (jsTrim text)
  else if filter.name = S "escape_md" then .ok (applyEscapeMdFilter text)
  else .error (.genericError (S "Unknown filter: " ++ filter.name))

/-- `applyFilters` from filters.ts: left-to-right fold. -/
def applyFilters (text : Str) (filters : List FilterCall) : Except Err Str :=
  match filters with
  | [] => .ok text
  | f :: rest => do
      let t ← applyFilter text f
      applyFilters t rest

-- ============================================================================
-- Lexer (lexer.ts)
-- ============================================================================

/-- Token kinds (types.ts `TokenType`). -/
inductive TokenType where
  | TEXT | VARIABLE
  | IF | ELSEIF | ELSE | END_IF
  | CASE | WHEN | END_WHEN | DEFAULT | END_DEFAULT | END_CASE
  | FOR | END_FOR
  | LIST | LIST_ITEM | END_LIST_ITEM | END_LIST
  | TABLE | HEADER | END_HEADER | ROW | END_ROW | END_TABLE
  | COMMENT | EOF
deriving DecidableEq, Repr

/-- The enum's string value for each token kind. -/
def tokenTypeStr : TokenType → Str
  | .TEXT => S "TEXT"
  | .VARIABLE => S "VARIABLE"
  | .IF => S "IF"
  | .ELSEIF => S "ELSEIF"
  | .ELSE => S "ELSE"
  | .END_IF => S "END_IF"
  | .CASE => S "CASE"
  | .WHEN => S "WHEN"
  | .END_WHEN => S "END_WHEN"
  | .DEFAULT => S "DEFAULT"
  | .END_DEFAULT => S "END_DEFAULT"
  | .END_CASE => S "END_CASE"
  | .FOR => S "FOR"
  | .END_FOR => S "END_FOR"
  | .LIST => S "LIST"
  | .LIST_ITEM => S "LIST_ITEM"
  | .END_LIST_ITEM => S "END_LIST_ITEM"
  | .END_LIST => S "END_LIST"
  | .TABLE => S "TABLE"
  | .HEADER => S "HEADER"
  | .END_HEADER => S "END_HEADER"
  | .ROW => S "ROW"
  | .END_ROW => S "END_ROW"
  | .END_TABLE => S "END_TABLE"
  | .COMMENT => S "COMMENT"
  | .EOF => S "EOF"

/-- A lexer token with position tracking (types.ts `Token`). -/
structure Token where
  type : TokenType
  value : Str
  line : Nat
  column : Nat
deriving DecidableEq, Repr

/-- Render a natural number (for error messages). -/
def natToStr (n : Nat) : Str := (toString n).data

/-- `.replace("_", " ")` as used on unclosed-block type names. -/
def underscoreToSpace (l : Str) : Str := l.map fun c => if c = '_' then ' ' else c

/-- Advance a (line, column) position over one character. -/
def advChar (lc : Nat × Nat) (c : Char) : Nat × Nat :=
  if c = '\n' then (lc.1 + 1, 1) else (lc.1, lc.2 + 1)

/-- Advance a (line, column) position over a string. -/
def advStr (lc : Nat × Nat) (s : Str) : Nat × Nat := s.foldl advChar lc

/-- The keyword table of `getTokenType`. -/
def getTokenType (keyword : Str) : Option TokenType :=
  if keyword = S "IF" then some .IF
  else if keyword = S "ELSEIF" then some .ELSEIF
  else if keyword = S "ELSE" then some .ELSE
  else if keyword = S "END_IF" then some .END_IF
  else if keyword = S "CASE" then some .CASE
  else if keyword = S "WHEN" then some .WHEN
  else if keyword = S "DEFAULT" then some .DEFAULT
  else if keyword = S "END_WHEN" then some .END_WHEN
  else if keyword = S "END_DEFAULT" then some .END_DEFAULT
  else if keyword = S "END_CASE" then some .END_CASE
  else if keyword = S "FOR" then some .FOR
  else if keyword = S "END_FOR" then some .END_FOR
  else if keyword = S "LIST" then some .LIST
  else if keyword = S "LIST_ITEM" then some .LIST_ITEM
  else if keyword = S "END_LIST_ITEM" then some .END_LIST_ITEM
  else if keyword = S "END_LIST" then some .END_LIST
  else if keyword = S "TABLE" then some .TABLE
  else if keyword = S "HEADER" then some .HEADER
  else if keyword = S "END_HEADER" then some .END_HEADER
  else if keyword = S "ROW" then some .ROW
  else if keyword = S "END_ROW" then some .END_ROW
  else if keyword = S "END_TABLE" then some .END_TABLE
  else none

/-- `extractKeyword`: the leading `[A-Z_]+` run, or the whole content when
the run is empty. -/
def extractKeyword (content : Str) : Str :=
  let m := content.takeWhile fun c => ('A' ≤ c && c ≤ 'Z') || c = '_'
  if m = [] then content else m

/-- The `scanVariable` loop after the `${{` is consumed: raw content up to
the first `}}`. -/
def scanVarBody : Str → Nat × Nat → Str → Option (Str × Str × (Nat × Nat))
  | '}' :: '}' :: rest, lc, acc => some (acc, rest, advStr lc (S "\x7d\x7d"))
  | c :: rest, lc, acc => scanVarBody rest (advChar lc c) (acc ++ [c])
  | [], _, _ => none

/-- The `scanComment` loop after the `#` is consumed: raw content up to
`#}}`. -/
def scanCommentBody : Str → Nat × Nat → Str → Option (Str × Str × (Nat × Nat))
  | '#' :: '}' :: '}' :: rest, lc, acc => some (acc, rest, advStr lc (S "#\x7d\x7d"))
  | c :: rest, lc, acc => scanCommentBody rest (advChar lc c) (acc ++ [c])
  | [], _, _ => none

/-- `scanUntilClosing`: tag content with `{{`/`}}` depth tracking; an
exhausted input reports the position reached. -/
def scanTagBody : Str → Nat × Nat → Nat → Str → Except (Nat × Nat) (Str × Str × (Nat × Nat))
  | '{' :: '{' :: rest, lc, depth, acc =>
      scanTagBody rest (advStr lc (S "\x7b\x7b")) (depth + 1) (acc ++ S "\x7b\x7b")
  | '}' :: '}' :: rest, lc, depth, acc =>
      if depth = 0 then .ok (acc, rest, advStr lc (S "\x7d\x7d"))
      else scanTagBody rest (advStr lc (S "\x7d\x7d")) (depth - 1) (acc ++ S "\x7d\x7d")
  | c :: rest, lc, depth, acc => scanTagBody rest (advChar lc c) depth (acc ++ [c])
  | [], lc, _, _ => .error lc

/-- `scanText`: accumulate raw text until the next `${{`, `{{` or the end
of input. -/
def collectText : Str → Str × Str
  | [] => ([], [])
  | l@('$' :: '{' :: '{' :: _) => ([], l)
  | l@('{' :: '{' :: _) => ([], l)
  | c :: rest =>
      let (content, r) := collectText rest
      (c :: content, r)

/-- CRLF normalization applied to TEXT tokens. -/
def normalizeCRLF : Str → Str
  | '\r' :: '\n' :: rest => '\n' :: normalizeCRLF rest
  | c :: rest => c :: normalizeCRLF rest
  | [] => []

/-- The main `tokenize` scan loop (fuel-indexed; the fuel supplied by
`tokenize` always suffices since every iteration consumes input).  Tag
scanning is entered on any single `\x7b`: in the source's dispatch
`current() === "\x7b" && peek() === "\x7b"`, `peek()` is called with its
default offset `0` and reads the current character again, so the second
conjunct repeats the first.  `scanTag` then consumes two characters
(`advance(2)`) — the brace and whatever follows it — before skipping
spaces and scanning the body. -/
def scanTokens : Nat → Str → Nat × Nat → List Token → Except Err (List Token)
  | 0, _, _, _ => .error (.genericError (S "fuel exhausted"))
  | fuel + 1, l, lc, acc =>
    match l with
    | [] => .ok (acc ++ [⟨.EOF, [], lc.1, lc.2⟩])
    | '$' :: '{' :: '{' :: rest =>
        (match scanVarBody rest (advStr lc (S "$\x7b\x7b")) [] with
         | some (content, rest', lc') =>
             scanTokens fuel rest' lc' (acc ++ [⟨.VARIABLE, jsTrim content, lc.1, lc.2⟩])
         | none =>
             .error (.syntaxError (S "Unclosed variable substitution $\x7b\x7b...\x7d\x7d")
               lc.1 lc.2 (some (S "Add closing \x7d\x7d"))))
    | '{' :: rest =>
        let lc1 := advStr lc ('{' :: rest.take 1)
        let rest0 := rest.drop 1
        let ws := rest0.takeWhile fun c => c = ' ' || c = '\t'
        let rest1 := rest0.drop ws.length
        let lc2 := advStr lc1 ws
        (match rest1 with
         | '#' :: rest2 =>
             (match scanCommentBody rest2 (advChar lc2 '#') [] with
              | some (content, rest', lc') =>
                  scanTokens fuel rest' lc' (acc ++ [⟨.COMMENT, content, lc.1, lc.2⟩])
              | none =>
                  .error (.syntaxError (S "Unclosed comment \x7b\x7b# ... #\x7d\x7d")
                    lc.1 lc.2 (some (S "Add closing #\x7d\x7d"))))
         | _ =>
             (match scanTagBody rest1 lc2 0 [] with
              | .error lcEnd =>
                  .error (.syntaxError (S "Unclosed tag \x7b\x7b...\x7d\x7d")
                    lcEnd.1 lcEnd.2 (some (S "Add closing \x7d\x7d")))
              | .ok (content, rest', lc') =>
                  let trimmed := jsTrim content
                  let keyword := extractKeyword trimmed
                  match getTokenType keyword with
                  | none =>
                      .error (.syntaxError (S "Unknown template tag: \x7b\x7b" ++ keyword ++ S "\x7d\x7d")
                        lc.1 lc.2
                        (some (S "Check syntax - valid tags: IF, CASE, FOR, TABLE, LIST, etc.")))
                  | some tt =>
                      scanTokens fuel rest' lc' (acc ++ [⟨tt, trimmed, lc.1, lc.2⟩])))
    | _ =>
        let (content, rest') := collectText l
        let lc' := advStr lc content
        scanTokens fuel rest' lc'
          (if content.length > 0 then acc ++ [⟨.TEXT, normalizeCRLF content, lc.1, lc.2⟩] else acc)

/-- The five block-opener token kinds. -/
def isOpener (t : TokenType) : Bool :=
  t = .IF || t = .FOR || t = .CASE || t = .TABLE || t = .LIST

/-- One closer check of `validateBlocks`: on `END_X`, the stack must be
non-empty with an `X` on top. -/
def closerFor : TokenType → Option TokenType
  | .END_IF => some .IF
  | .END_FOR => some .FOR
  | .END_CASE => some .CASE
  | .END_TABLE => some .TABLE
  | .END_LIST => some .LIST
  | _ => none

/-- The `validateBlocks` loop over the tokens with an explicit stack (most
recent entry first). -/
def validateBlocksGo : List Token → List (TokenType × Nat × Nat) → Except Err Unit
  | [], stack =>
      (match stack with
       | [] => .ok ()
       | top :: _ =>
           let typeName := underscoreToSpace (tokenTypeStr top.1)
           .error (.syntaxError
             (S "Unclosed \x7b\x7b" ++ typeName ++ S "\x7d\x7d block starting at line " ++
               natToStr top.2.1)
             top.2.1 top.2.2
             (some (S "Add \x7b\x7bEND_" ++ typeName ++ S "\x7d\x7d"))))
  | t :: rest, stack =>
      let stack1 := if isOpener t.type then (t.type, t.line, t.column) :: stack else stack
      match closerFor t.type with
      | none => validateBlocksGo rest stack1
      | some opener =>
          match stack1 with
          | top :: stack' =>
              if top.1 = opener then validateBlocksGo rest stack'
              else
                .error (.syntaxError
                  (S "Unexpected \x7b\x7b" ++ tokenTypeStr t.type ++ S "\x7d\x7d without matching \x7b\x7b" ++
                    tokenTypeStr opener ++ S "\x7d\x7d")
                  t.line t.column (some (S "Check template structure")))
          | [] =>
              .error (.syntaxError
                (S "Unexpected \x7b\x7b" ++ tokenTypeStr t.type ++ S "\x7d\x7d without matching \x7b\x7b" ++
                  tokenTypeStr opener ++ S "\x7d\x7d")
                t.line t.column (some (S "Check template structure")))

/-- `validateBlocks` from lexer.ts (openers and closers are disjoint kinds,
so pushing before the closer checks matches the source's if-chain). -/
def validateBlocks (tokens : List Token) : Except Err Unit :=
  validateBlocksGo tokens []

/-- `tokenize` from lexer.ts: scan, push EOF, validate block balance,
return the token list. -/
def tokenize (template : Str) : Except Err (List Token) := do
  let toks ← scanTokens (template.length + 1) template (1, 1) []
  validateBlocks toks
  pure toks

-- ============================================================================
-- AST (types.ts node shapes) and Parser (parser.ts).  LIST/TABLE/Ternary
-- node parsing is not modelled (no claim involves those constructs); the
-- corresponding parser branches report an explicit out-of-model error.
-- ============================================================================

/-- The AST fragment the claims need.  `ifN`'s alternate models
`ASTNode[] | IfNode | null`; `caseN` carries (value, body) WHEN arms and
an optional DEFAULT body. -/
inductive Node where
  | textN (content : Str) (line column : Nat)
  | varN (path : List Str) (defaultValue : Option Str) (filters : List Str) (line column : Nat)
  | ifN (condition : Str) (consequent : List Node) (alternate : Option (List Node ⊕ Node))
      (line column : Nat)
  | caseN (expression : Str) (cases : List (Str × List Node)) (dflt : Option (List Node))
      (line column : Nat)
  | forN (iterable : List Str) (itemName : Str) (body : List Node) (line column : Nat)
  | commentN (content : Str) (line column : Nat)
deriving Repr

/-- First index of a substring (JS `indexOf`). -/
def indexOfSub (l sub : Str) : Option Nat :=
  (List.range (l.length + 1)).find? fun i => startsWithC (l.drop i) sub

/-- `parseVariableExpression` from parser.ts: split the filter chain at
`|` first, split off a `?? default` (quotes stripped), split the path at
`.`; filters keep their raw text (the parser stores them as bare
`FilterCall`s whose name is the raw filter expression). -/
def parseVariableExpression (expr : Str) : List Str × Option Str × List Str :=
  let parts := (splitOnChar expr '|').map jsTrim
  let core := parts.headD []
  let filterExprs := parts.tail
  let (pathExpr, defaultValue) :=
    match indexOfSub core (S "??") with
    | none => (core, (none : Option Str))
    | some i => (jsTrim (core.take i), some (stripQuotes (jsTrim (core.drop (i + 2)))))
  let path := (splitOnChar pathExpr '.').map jsTrim
  (path, defaultValue, filterExprs)

/-- `extractCondition` from parser.ts: strip a leading `ELSEIF`/`IF`
keyword (case-insensitive) and the following whitespace, then trim. -/
def extractCondition (expr : Str) : Str :=
  let tryStrip (kw : Str) : Option Str :=
    if startsWithCI expr kw then
      let after := expr.drop kw.length
      let ws := after.takeWhile isWs
      if ws ≠ [] then some (after.drop ws.length) else none
    else none
  jsTrim (((tryStrip (S "ELSEIF")).orElse fun _ => tryStrip (S "IF")).getD expr)

/-- `extractExpression` from parser.ts (`CASE status` → `status`). -/
def extractExpression (expr : Str) : Str :=
  let tryStrip :=
    if startsWithCI expr (S "CASE") then
      let after := expr.drop 4
      let ws := after.takeWhile isWs
      if ws ≠ [] then some (after.drop ws.length) else none
    else none
  jsTrim (tryStrip.getD expr)

/-- A quote character (`["']` in the regexes). -/
def isQuoteChar (c : Char) : Bool := c = '"' || c = '\''

/-- A character `.` can match (JS dot excludes line terminators). -/
def isDotChar (c : Char) : Bool := c ≠ '\n' && c ≠ '\r'

/-- `extractQuotedValue` from parser.ts: the regex `/["'](.+?)["']/` —
leftmost opening quote with the laziest non-empty newline-free body up to
the next quote character; no match yields the empty string (so neither
`\"` unescaping nor bare identifiers are supported here). -/
def extractQuotedValueGo (expr : Str) : Nat → Nat → Str
  | 0, _ => []
  | fuel + 1, i =>
    if i < expr.length then
      if isQuoteChar (expr.getD i ' ') then
        let region := (expr.drop (i + 1)).takeWhile isDotChar
        match (List.range' (i + 2) region.length).find?
            (fun j => isQuoteChar (expr.getD j ' ')) with
        | some j => (expr.take j).drop (i + 1)
        | none => extractQuotedValueGo expr fuel (i + 1)
      else extractQuotedValueGo expr fuel (i + 1)
    else []

/-- The full quoted-value scan. -/
def extractQuotedValue (expr : Str) : Str := extractQuotedValueGo expr (expr.length + 1) 0

/-- A `\w` word character. -/
def isWordChar (c : Char) : Bool := c.isAlphanum || c = '_'

/-- Whether `/FOR\s+(.+?)\s+AS\s+(\w+)/i` can match at start `s` with lazy
group length `j`, and the resulting groups. -/
def forMatchAt (expr : Str) (s : Nat) : Option (Str × Str) :=
  if startsWithCI (expr.drop s) (S "FOR") then
    let after := expr.drop (s + 3)
    let ws1 := after.takeWhile isWs
    if ws1 = [] then none
    else
      let core := after.drop ws1.length
      match (List.range core.length).find? (fun j =>
          j ≥ 1 &&
          (let restj := core.drop j
           let run := restj.takeWhile isWs
           run ≠ [] && startsWithCI (restj.drop run.length) (S "AS") &&
             (let afterAs := restj.drop (run.length + 2)
              let run2 := afterAs.takeWhile isWs
              run2 ≠ [] && isWordChar (afterAs.getD run2.length ' ') &&
                run2.length < afterAs.length))) with
      | none => none
      | some j =>
          let restj := core.drop j
          let run := restj.takeWhile isWs
          let afterAs := restj.drop (run.length + 2)
          let run2 := afterAs.takeWhile isWs
          let word := (afterAs.drop run2.length).takeWhile isWordChar
          some (core.take j, word)
  else none

/-- `parseForExpression`'s regex match: earliest start position wins. -/
def parseForExpr (expr : Str) : Option (List Str × Str) :=
  match (List.range expr.length).findSome? (fun s => forMatchAt expr s) with
  | none => none
  | some (raw, item) =>
      some ((splitOnChar (jsTrim raw) '.').map jsTrim, item)

/-- The EOF token used when indexing past the end (the lexer always
terminates token lists with an EOF token). -/
def eofToken : Token := ⟨.EOF, [], 0, 0⟩

/-- `current()`. -/
def pCurrent (toks : List Token) (pos : Nat) : Token := toks.getD pos eofToken

/-- `isAtEnd()`. -/
def pAtEnd (toks : List Token) (pos : Nat) : Bool := (pCurrent toks pos).type = .EOF

/-- `check(type)`. -/
def pCheck (toks : List Token) (pos : Nat) (t : TokenType) : Bool :=
  !pAtEnd toks pos && (pCurrent toks pos).type = t

/-- `consume(type)`: advance past the expected token or raise. -/
def pConsume (toks : List Token) (pos : Nat) (t : TokenType) : Except Err (Token × Nat) :=
  if pCheck toks pos t then .ok (pCurrent toks pos, pos + 1)
  else
    let tok := pCurrent toks pos
    .error (.syntaxError (S "Expected " ++ tokenTypeStr t ++ S ", got " ++ tokenTypeStr tok.type)
      tok.line tok.column (some (S "Check template syntax near line " ++ natToStr tok.line)))

mutual

/-- `parseNode` from parser.ts (dispatch on the current token). -/
def parseNode : Nat → List Token → Nat → Except Err (Option Node × Nat)
  | 0, _, _ => .error (.genericError (S "fuel exhausted"))
  | fuel + 1, toks, pos =>
    let tok := pCurrent toks pos
    match tok.type with
    | .TEXT => .ok (some (.textN tok.value tok.line tok.column), pos + 1)
    | .VARIABLE =>
        let (path, dflt, filters) := parseVariableExpression tok.value
        .ok (some (.varN path dflt filters tok.line tok.column), pos + 1)
    | .IF => parseIf fuel toks pos
    | .CASE => parseCase fuel toks pos
    | .FOR => parseFor fuel toks pos
    | .COMMENT => .ok (some (.commentN tok.value tok.line tok.column), pos + 1)
    | .EOF => .ok (none, pos)
    | .LIST => .error (.genericError (S "LIST parsing not modelled"))
    | .TABLE => .error (.genericError (S "TABLE parsing not modelled"))
    | .HEADER => .error (.genericError (S "TABLE parsing not modelled"))
    | .ROW => .error (.genericError (S "TABLE parsing not modelled"))
    | _ =>
        .error (.syntaxError (S "Unexpected token: " ++ tokenTypeStr tok.type)
          tok.line tok.column (some (S "Check template syntax")))

termination_by structural n _ _ => n

/-- The shared body-collection loop (`while (!check(stop1) && ...)`),
raising the given unclosed-block error on EOF. -/
def parseNodesUntil (fuel : Nat) (toks : List Token) (pos : Nat) (stops : List TokenType)
    (errMsg : Str) (errLine errCol : Nat) (errSug : Str) :
    Except Err (List Node × Nat) :=
  match fuel with
  | 0 => .error (.genericError (S "fuel exhausted"))
  | fuel + 1 =>
    if stops.any (fun t => pCheck toks pos t) then .ok ([], pos)
    else if pAtEnd toks pos then
      .error (.syntaxError errMsg errLine errCol (some errSug))
    else do
      let (n?, pos') ← parseNode fuel toks pos
      let (ns, pos'') ← parseNodesUntil fuel toks pos' stops errMsg errLine errCol errSug
      pure (n?.toList ++ ns, pos'')

termination_by structural fuel

/-- `parseIf` from parser.ts (ELSEIF desugars into a nested If node in the
alternate). -/
def parseIf : Nat → List Token → Nat → Except Err (Option Node × Nat)
  | 0, _, _ => .error (.genericError (S "fuel exhausted"))
  | fuel + 1, toks, pos => do
    let (tok, p1) ← pConsume toks pos .IF
    let condition := extractCondition tok.value
    let (consequent, p2) ← parseNodesUntil fuel toks p1 [.ELSEIF, .ELSE, .END_IF]
      (S "Unclosed \x7b\x7bIF\x7d\x7d block starting at line " ++ natToStr tok.line)
      tok.line tok.column (S "Add \x7b\x7bEND_IF\x7d\x7d")
    if pCheck toks p2 .ELSEIF then do
      let (elseIfTok, p3) ← pConsume toks p2 .ELSEIF
      let elseIfCond := extractCondition elseIfTok.value
      let (body2, p4) ← parseNodesUntil fuel toks p3 [.ELSEIF, .ELSE, .END_IF]
        (S "Unclosed \x7b\x7bELSEIF\x7d\x7d block") elseIfTok.line elseIfTok.column
        (S "Add \x7b\x7bEND_IF\x7d\x7d")
      if pCheck toks p4 .ELSEIF then do
        let (nested, p5) ← parseElseIf fuel toks p4
        let nestedIf : Node :=
          .ifN elseIfCond body2 (some (.inr nested)) elseIfTok.line elseIfTok.column
        let (_, p6) ← pConsume toks p5 .END_IF
        pure (some (.ifN condition consequent (some (.inr nestedIf)) tok.line tok.column), p6)
      else if pCheck toks p4 .ELSE then do
        let (_, p5) ← pConsume toks p4 .ELSE
        let (elseBody, p6) ← parseNodesUntil fuel toks p5 [.END_IF]
          (S "Unclosed \x7b\x7bELSE\x7d\x7d block") tok.line tok.column
          (S "Add \x7b\x7bEND_IF\x7d\x7d")
        let nestedIf : Node :=
          .ifN elseIfCond body2 (some (.inl elseBody)) elseIfTok.line elseIfTok.column
        let (_, p7) ← pConsume toks p6 .END_IF
        pure (some (.ifN condition consequent (some (.inr nestedIf)) tok.line tok.column), p7)
      else do
        let nestedIf : Node := .ifN elseIfCond body2 none elseIfTok.line elseIfTok.column
        let (_, p5) ← pConsume toks p4 .END_IF
        pure (some (.ifN condition consequent (some (.inr nestedIf)) tok.line tok.column), p5)
    else if pCheck toks p2 .ELSE then do
      let (_, p3) ← pConsume toks p2 .ELSE
      let (elseBody, p4) ← parseNodesUntil fuel toks p3 [.END_IF]
        (S "Unclosed \x7b\x7bELSE\x7d\x7d block") tok.line tok.column
        (S "Add \x7b\x7bEND_IF\x7d\x7d")
      let (_, p5) ← pConsume toks p4 .END_IF
      pure (some (.ifN condition consequent (some (.inl elseBody)) tok.line tok.column), p5)
    else do
      let (_, p3) ← pConsume toks p2 .END_IF
      pure (some (.ifN condition consequent none tok.line tok.column), p3)

termination_by structural n _ _ => n

/-- `parseElseIf` from parser.ts (does not consume the closing END_IF). -/
def parseElseIf : Nat → List Token → Nat → Except Err (Node × Nat)
  | 0, _, _ => .error (.genericError (S "fuel exhausted"))
  | fuel + 1, toks, pos => do
    let (tok, p1) ← pConsume toks pos .ELSEIF
    let condition := extractCondition tok.value
    let (consequent, p2) ← parseNodesUntil fuel toks p1 [.ELSEIF, .ELSE, .END_IF]
      (S "Unclosed \x7b\x7bELSEIF\x7d\x7d block") tok.line tok.column
      (S "Add \x7b\x7bEND_IF\x7d\x7d")
    if pCheck toks p2 .ELSEIF then do
      let (nested, p3) ← parseElseIf fuel toks p2
      pure (.ifN condition consequent (some (.inr nested)) tok.line tok.column, p3)
    else if pCheck toks p2 .ELSE then do
      let (_, p3) ← pConsume toks p2 .ELSE
      let (elseBody, p4) ← parseNodesUntil fuel toks p3 [.END_IF]
        (S "Unclosed \x7b\x7bELSE\x7d\x7d block") tok.line tok.column
        (S "Add \x7b\x7bEND_IF\x7d\x7d")
      pure (.ifN condition consequent (some (.inl elseBody)) tok.line tok.column, p4)
    else
      pure (.ifN condition consequent none tok.line tok.column, p2)

termination_by structural n _ _ => n

/-- `parseWhen` from parser.ts: the body stops at END_WHEN (consumed if
present) or at the next WHEN/DEFAULT/END_CASE (left in place). -/
def parseWhen : Nat → List Token → Nat → Except Err ((Str × List Node) × Nat)
  | 0, _, _ => .error (.genericError (S "fuel exhausted"))
  | fuel + 1, toks, pos => do
    let (tok, p1) ← pConsume toks pos .WHEN
    let value := extractQuotedValue tok.value
    let (body, p2) ← parseNodesUntil fuel toks p1 [.END_WHEN, .WHEN, .DEFAULT, .END_CASE]
      (S "Unclosed \x7b\x7bWHEN\x7d\x7d block") tok.line tok.column
      (S "Add \x7b\x7bEND_WHEN\x7d\x7d")
    if pCheck toks p2 .END_WHEN then do
      let (_, p3) ← pConsume toks p2 .END_WHEN
      pure ((value, body), p3)
    else
      pure ((value, body), p2)

termination_by structural n _ _ => n

/-- `parseDefault` from parser.ts: the body stops at END_DEFAULT (consumed
if present) or at END_CASE (left in place). -/
def parseDefault : Nat → List Token → Nat → Except Err (List Node × Nat)
  | 0, _, _ => .error (.genericError (S "fuel exhausted"))
  | fuel + 1, toks, pos => do
    let (tok, p1) ← pConsume toks pos .DEFAULT
    let (body, p2) ← parseNodesUntil fuel toks p1 [.END_DEFAULT, .END_CASE]
      (S "Unclosed \x7b\x7bDEFAULT\x7d\x7d block") tok.line tok.column
      (S "Add \x7b\x7bEND_DEFAULT\x7d\x7d")
    if pCheck toks p2 .END_DEFAULT then do
      let (_, p3) ← pConsume toks p2 .END_DEFAULT
      pure (body, p3)
    else
      pure (body, p2)

termination_by structural n _ _ => n

/-- The WHEN/DEFAULT/whitespace loop of `parseCase` (a later DEFAULT
overwrites an earlier one, WHEN arms accumulate in order). -/
def parseCaseBody (fuel : Nat) (toks : List Token) (pos : Nat) (caseTok : Token)
    (cases : List (Str × List Node)) (dflt : Option (List Node)) :
    Except Err (List (Str × List Node) × Option (List Node) × Nat) :=
  match fuel with
  | 0 => .error (.genericError (S "fuel exhausted"))
  | fuel + 1 =>
    if pCheck toks pos .END_CASE then .ok (cases, dflt, pos)
    else if pAtEnd toks pos then
      .error (.syntaxError (S "Unclosed \x7b\x7bCASE\x7d\x7d block") caseTok.line caseTok.column
        (some (S "Add \x7b\x7bEND_CASE\x7d\x7d")))
    else if pCheck toks pos .WHEN then do
      let (arm, p') ← parseWhen fuel toks pos
      parseCaseBody fuel toks p' caseTok (cases ++ [arm]) dflt
    else if pCheck toks pos .DEFAULT then do
      let (body, p') ← parseDefault fuel toks pos
      parseCaseBody fuel toks p' caseTok cases (some body)
    else if pCheck toks pos .TEXT then
      let textTok := pCurrent toks pos
      if jsTrim textTok.value ≠ [] then
        .error (.syntaxError (S "Unexpected text in CASE: \"" ++ jsTrim textTok.value ++ S "\"")
          textTok.line textTok.column
          (some (S "CASE blocks should only contain \x7b\x7bWHEN\x7d\x7d and \x7b\x7bDEFAULT\x7d\x7d")))
      else parseCaseBody fuel toks (pos + 1) caseTok cases dflt
    else
      let tok := pCurrent toks pos
      .error (.syntaxError (S "Unexpected token in CASE: " ++ tokenTypeStr tok.type)
        tok.line tok.column (some (S "Expected \x7b\x7bWHEN\x7d\x7d or \x7b\x7bDEFAULT\x7d\x7d")))

termination_by structural fuel

/-- `parseCase` from parser.ts. -/
def parseCase : Nat → List Token → Nat → Except Err (Option Node × Nat)
  | 0, _, _ => .error (.genericError (S "fuel exhausted"))
  | fuel + 1, toks, pos => do
    let (tok, p1) ← pConsume toks pos .CASE
    let expression := extractExpression tok.value
    let (cases, dflt, p2) ← parseCaseBody fuel toks p1 tok [] none
    let (_, p3) ← pConsume toks p2 .END_CASE
    pure (some (.caseN expression cases dflt tok.line tok.column), p3)

termination_by structural n _ _ => n

/-- `parseFor` from parser.ts. -/
def parseFor : Nat → List Token → Nat → Except Err (Option Node × Nat)
  | 0, _, _ => .error (.genericError (S "fuel exhausted"))
  | fuel + 1, toks, pos => do
    let (tok, p1) ← pConsume toks pos .FOR
    match parseForExpr tok.value with
    | none =>
        let cur := pCurrent toks p1
        .error (.syntaxError (S "Invalid FOR syntax: " ++ tok.value) cur.line cur.column
          (some (S "Expected: \x7b\x7bFOR items AS item\x7d\x7d")))
    | some (iterable, itemName) => do
        let (body, p2) ← parseNodesUntil fuel toks p1 [.END_FOR]
          (S "Unclosed \x7b\x7bFOR\x7d\x7d block") tok.line tok.column
          (S "Add \x7b\x7bEND_FOR\x7d\x7d")
        let (_, p3) ← pConsume toks p2 .END_FOR
        pure (some (.forN iterable itemName body tok.line tok.column), p3)
termination_by structural n _ _ => n

end

/-- The `parse()` top-level loop. -/
def parseProgram (fuel : Nat) (toks : List Token) (pos : Nat) : Except Err (List Node) :=
  match fuel with
  | 0 => .error (.genericError (S "fuel exhausted"))
  | fuel + 1 =>
    if pAtEnd toks pos then .ok []
    else do
      let (n?, pos') ← parseNode fuel toks pos
      let ns ← parseProgram fuel toks pos'
      pure (n?.toList ++ ns)

/-- `parse` from parser.ts: the Program body (the fuel is comfortably more
than the number of parser steps any token list can take). -/
def parse (toks : List Token) : Except Err (List Node) :=
  parseProgram ((toks.length + 2) * (toks.length + 2)) toks 0

-- ============================================================================
-- Interpreter (interpreter.ts)
-- ============================================================================

/-- Interpreter construction state: the caller-supplied variable map and
the strict-mode flag.  The mutable `loopContext` is threaded explicitly
through the visit functions. -/
structure Ctx where
  vars : VarMap
  strictMode : Bool

/-- The interpreter-local loop overlay (`this.loopContext`). -/
abbrev LoopMap := VarMap

/-- `getAllVariables`: a copy of the caller map with every loop-overlay
entry set on top. -/
def getAllVariables (C : Ctx) (loopCtx : LoopMap) : VarMap :=
  loopCtx.foldl (fun m p => mapSet m p.1 p.2) C.vars

/-- `resolveNestedPath` from interpreter.ts: the root key is looked up in
the loop overlay first, then the caller map; a wholly absent root key
throws MissingVariableError (carrying `Array.from(this.variables.keys())`)
in strict mode unless `allowUndefined`; later hops JSON-auto-parse string
values via `tryCoerceToObject` and support `parseInt` array indices. -/
def resolveNestedPath (path : List Str) (allowUndefined : Bool) (C : Ctx)
    (loopCtx : LoopMap) : Except Err Value :=
  let rootKey := path.headD []
  let hasKey := mapHas loopCtx rootKey || mapHas C.vars rootKey
  let current : Value :=
    if mapHas loopCtx rootKey then mapGet loopCtx rootKey
    else if mapHas C.vars rootKey then mapGet C.vars rootKey
    else .vUndef
  if !hasKey then
    if !allowUndefined && C.strictMode then
      .error (.missingVariable rootKey 1 1 (mapKeys C.vars))
    else .ok .vNull
  else .ok (go path.tail current)
where
  /-- The hop loop (a key that exists but holds undefined does not throw). -/
  go : List Str → Value → Value
  | [], current => current
  | seg :: rest, current =>
      if current.isNullish then .vNull
      else
        match current with
        | .vStr s =>
            (match tryCoerceToObject (.vStr s) with
             | some fields =>
                 go rest (match fields.find? (fun p => p.1 = seg) with
                          | some p => p.2
                          | none => .vUndef)
             | none => .vNull)
        | .vObj fields =>
            go rest (match fields.find? (fun p => p.1 = seg) with
                     | some p => p.2
                     | none => .vUndef)
        | .vArr elems =>
            go rest (match jsParseInt seg with
                     | some n =>
                         if 0 ≤ n ∧ n < (elems.length : Int) then elems.getD n.toNat .vUndef
                         else .vUndef
                     | none => .vUndef)
        | _ => .vNull

/-- `valueToString` from interpreter.ts (`null`/`undefined` and
unconvertible values render as the empty string; `str || ""` keeps empty
strings empty). -/
def valueToString (v : Value) : Str :=
  if v.isNullish then []
  else
    match tryCoerceToString v with
    | some s => if s = [] then [] else s
    | none => []

/-- `isMathExpression` from interpreter.ts. -/
def isMathExpression (expr : Str) : Bool :=
  expr.any (fun c => c = '+' || c = '-' || c = '*' || c = '/' || c = '%') ||
  expr.any (fun c => c = '(' || c = ')')

/-- `visitVariable` from interpreter.ts: a math-looking path is tried as
arithmetic first (all failures caught and ignored); then normal
resolution with absence allowed iff a `??` default exists; an untruthy
value is replaced by the default literal; filters (parsed from their raw
text) apply to the stringified value. -/
def visitVariable (path : List Str) (defaultValue : Option Str) (filters : List Str)
    (C : Ctx) (loopCtx : LoopMap) : Except Err Str :=
  let pathStr := joinWith path (S ".")
  let mathResult : Option Str :=
    if isMathExpression pathStr then
      match evaluateMathExpression pathStr (getAllVariables C loopCtx) with
      | .ok r => some (intToStr r)
      | .error _ => none
    else none
  match mathResult with
  | some s => .ok s
  | none => do
      let allowUndefined := defaultValue.isSome
      let v ← resolveNestedPath path allowUndefined C loopCtx
      let v := match defaultValue with
               | some d => if !isTruthy v then .vStr d else v
               | none => v
      if filters ≠ [] then do
        let text := valueToString v
        let fs := filters.map parseFilter
        let out ← applyFilters text fs
        pure (valueToString (.vStr out))
      else
        pure (valueToString v)

/-- One iteration's loop-overlay update: the item binding plus the seven
synthetic `@` variables. -/
def setLoopBindings (loopCtx : LoopMap) (itemName : Str) (v : Value) (i total : Nat) :
    LoopMap :=
  let m := mapSet loopCtx itemName v
  let m := mapSet m (S "@index0") (.vNum i)
  let m := mapSet m (S "@index1") (.vNum (i + 1))
  let m := mapSet m (S "@first") (.vBool (i = 0))
  let m := mapSet m (S "@last") (.vBool (i = total - 1))
  let m := mapSet m (S "@notFirst") (.vBool (i ≠ 0))
  mapSet m (S "@notLast") (.vBool (i ≠ total - 1))

mutual

/-- Render a node list in order (`.map(visit).join("")`), threading the
loop overlay (fuel-indexed; callers supply ample fuel and every theorem
is conditioned on a non-fuel result). -/
def visitMany : Nat → List Node → Ctx → LoopMap → Except Err (Str × LoopMap)
  | 0, _, _, _ => .error (.genericError (S "fuel exhausted"))
  | _ + 1, [], _, lm => .ok ([], lm)
  | fuel + 1, n :: rest, C, lm => do
      let (s, lm') ← visit fuel n C lm
      let (s2, lm'') ← visitMany fuel rest C lm'
      pure (s ++ s2, lm'')

/-- The `visit` dispatcher of interpreter.ts over the modelled node
kinds. -/
def visit : Nat → Node → Ctx → LoopMap → Except Err (Str × LoopMap)
  | 0, _, _, _ => .error (.genericError (S "fuel exhausted"))
  | fuel + 1, node, C, lm =>
    match node with
    | .textN content _ _ => .ok (content, lm)
    | .varN path dflt filters _ _ => do
        let s ← visitVariable path dflt filters C lm
        pure (s, lm)
    | .ifN condition consequent alternate _ _ => do
        let b ← evaluateCondition condition (getAllVariables C lm)
        if b then visitMany fuel consequent C lm
        else
          match alternate with
          | some (.inl elseBody) => visitMany fuel elseBody C lm
          | some (.inr nested) => visit fuel nested C lm
          | none => .ok ([], lm)
    | .caseN expression cases dflt _ _ => do
        let v ← resolveNestedPath (splitOnChar expression '.') false C lm
        let valueStr := valueToString v
        match cases.find? (fun arm => arm.1 = valueStr) with
        | some arm => visitMany fuel arm.2 C lm
        | none =>
            match dflt with
            | some body => visitMany fuel body C lm
            | none => .ok ([], lm)
    | .forN iterable itemName body ln col => do
        let iterableV ← resolveNestedPath iterable false C lm
        match tryCoerceToArray iterableV with
        | none =>
            if C.strictMode then
              .error (.typeError (S "Cannot iterate over non-array value: " ++ stringifyForMsg iterableV)
                ln col (some (S "Ensure the value is an array or can be coerced to one")))
            else .ok ([], lm)
        | some arr => do
            let (out, _) ← forIter fuel itemName body arr 0 arr.length C lm
            pure (out, ([] : LoopMap))
    | .commentN _ _ _ => .ok ([], lm)

/-- The FOR iteration loop: bind, render the body, continue; the overlay
resulting from the body render is carried into the next iteration. -/
def forIter : Nat → Str → List Node → List Value → Nat → Nat → Ctx → LoopMap →
    Except Err (Str × LoopMap)
  | 0, _, _, _, _, _, _, _ => .error (.genericError (S "fuel exhausted"))
  | _ + 1, _, _, [], _, _, _, lm => .ok ([], lm)
  | fuel + 1, itemName, body, v :: rest, i, total, C, lm => do
      let lm1 := setLoopBindings lm itemName v i total
      let (s, lm2) ← visitMany fuel body C lm1
      let (s2, lm3) ← forIter fuel itemName body rest (i + 1) total C lm2
      pure (s ++ s2, lm3)

end

/-- `interpret` (the `visitProgram` entry point; each render starts with a
fresh, empty loop overlay). -/
def interpret (fuel : Nat) (prog : List Node) (C : Ctx) : Except Err Str :=
  (visitMany fuel prog C []).map Prod.fst

/-- `resolveTemplate` from TemplateResolver.node.ts: tokenize, parse,
interpret (with caller-chosen interpreter fuel). -/
def resolveTemplate (fuel : Nat) (template : Str) (vm : VarMap) (strictMode : Bool) :
    Except Err Str := do
  let toks ← tokenize template
  let ast ← parse toks
  interpret fuel ast ⟨vm, strictMode⟩

-- ============================================================================
-- Claims
-- ============================================================================

/-- C4: the tolerant-JSON repair absorbs stray leading and trailing
commas: `tryCoerceToArray` maps `"[1,2,3,]"`, `"[,1,2,3]"` and
`"[,1,2,3,]"` all to the array `[1,2,3]`, and `tryCoerceToObject` maps
`'{"a":1,}'` to the object `{a:1}`. -/
theorem c4_tolerant_json_repair :
    tryCoerceToArray (.vStr (S "[1,2,3,]")) = some [.vNum 1, .vNum 2, .vNum 3] ∧
    tryCoerceToArray (.vStr (S "[,1,2,3]")) = some [.vNum 1, .vNum 2, .vNum 3] ∧
    tryCoerceToArray (.vStr (S "[,1,2,3,]")) = some [.vNum 1, .vNum 2, .vNum 3] ∧
    tryCoerceToObject (.vStr (S "\x7b\"a\":1,\x7d")) = some [(S "a", .vNum 1)] :=
  ⟨rfl, rfl, rfl, rfl⟩

/-- C8 counterexample: the claim says `head=N` with `N<0` drops the last
`|N|` characters, so `head=-5` on `"abc"` would have to give `""`; the
source computes `slice(0, 3 + (-5))` whose negative end index wraps to
`max(3 + (-2), 0) = 1`, giving `"a"`. -/
theorem c8_head_negative_counterexample :
    applyFilter (S "abc") ⟨S "head", [(S "value", S "-5")]⟩ = .ok (S "a") ∧
    S "a" ≠ ([] : Str) :=
  ⟨rfl, by decide⟩

/-- `take` clamped at the length is plain `take`. -/
theorem take_min_length (l : Str) (k : Nat) : l.take (min k l.length) = l.take k := by
  rcases le_total k l.length with h | h
  · rw [min_eq_left h]
  · rw [min_eq_right h, List.take_length, List.take_of_length_le h]

/-- `drop` clamped at the length is plain `drop`. -/
theorem drop_min_length (l : Str) (k : Nat) : l.drop (min k l.length) = l.drop k := by
  rcases le_total k l.length with h | h
  · rw [min_eq_left h]
  · rw [min_eq_right h, List.drop_length, List.drop_of_length_le h]

/-- `slice(0, b)` takes a clamped prefix. -/
theorem jsSlice_zero (t : Str) (b : Int) : jsSlice t 0 b = t.take (jsSliceClamp t.length b) := by
  unfold jsSlice jsSliceClamp
  norm_num

/-- `slice(a)` drops a clamped prefix. -/
theorem jsSliceFrom_eq (t : Str) (a : Int) :
    jsSliceFrom t a = t.drop (jsSliceClamp t.length a) := by
  unfold jsSliceFrom jsSlice jsSliceClamp
  rw [if_neg (by exact Int.not_lt.mpr (Int.natCast_nonneg _) : ¬ ((t.length : Int) < 0))]
  simp

/-- C8 (amended): for a parameter string `v` denoting the integer `n`,
`head=n` takes the first `n` characters when `n ≥ 0` and computes
`slice(0, len + n)` when `n < 0` — dropping the last `|n|` characters when
`|n| ≤ len`, but wrapping to the first `max(2·len + n, 0)` characters when
`|n| > len` (so `head=-5` on `"abc"` is `"a"`, not `""`); `tail=n` gives
the empty string at `n = 0`, drops the first `|n|` characters when
`n < 0`, and keeps the last `n` when `n > 0`; a missing, empty or
non-numeric parameter is an error for both filters; and the filter layer
takes no strict-mode input, so a variable tag whose filter chain fails
renders to the identical error under both modes. -/
theorem c8_head_tail_filters (t v : Str) (n : Int) (hv : v ≠ []) (hn : jsNumber v = some n) :
    (applyHeadFilter t [(S "value", v)] = .ok (
      if n < 0 then
        (if (t.length : Int) + n < 0 then t.take ((2 * (t.length : Int) + n).toNat)
         else t.take (((t.length : Int) + n).toNat))
      else t.take n.toNat)) ∧
    (applyTailFilter t [(S "value", v)] = .ok (
      if n = 0 then []
      else if n < 0 then t.drop (-n).toNat
      else t.drop (t.length - n.toNat))) ∧
    (∃ m, applyHeadFilter t [] = .error (.genericError m)) ∧
    (∃ m, applyTailFilter t [] = .error (.genericError m)) ∧
    (∃ m, applyHeadFilter t [(S "value", S "abc")] = .error (.genericError m)) ∧
    (∃ m, applyTailFilter t [(S "value", S "abc")] = .error (.genericError m)) ∧
    (∀ strict : Bool, ∀ fuel vm fs e,
      applyFilters (valueToString (mapGet vm (S "x"))) ((fs : List Str).map parseFilter)
          = .error e →
      mapHas vm (S "x") = true → fs ≠ [] →
      visit (fuel + 1) (.varN [S "x"] none fs 1 1) ⟨vm, strict⟩ [] = .error e) := by
  have hget : recGet [(S "value", v)] (S "value") = some v := by
    unfold recGet
    rw [List.find?_cons_of_pos _ (by simp)]
    rfl
  refine ⟨?_, ?_, ⟨_, rfl⟩, ⟨_, rfl⟩, ⟨_, rfl⟩, ⟨_, rfl⟩, ?_⟩
  · unfold applyHeadFilter
    rw [hget]
    simp only [hv, if_false, hn]
    by_cases h0 : n < 0
    · rw [if_pos h0, if_pos h0, jsSlice_zero]
      unfold jsSliceClamp
      by_cases h1 : (t.length : Int) + n < 0
      · rw [if_pos h1, if_pos h1]
        have he : ((t.length : Int) + ((t.length : Int) + n)).toNat
            = (2 * (t.length : Int) + n).toNat := by omega
        rw [he]
      · rw [if_neg h1, if_neg h1]
        have he : min ((t.length : Int) + n).toNat t.length = ((t.length : Int) + n).toNat := by
          omega
        rw [he]
    · rw [if_neg h0, if_neg h0, jsSlice_zero]
      unfold jsSliceClamp
      rw [if_neg h0, take_min_length]
  · unfold applyTailFilter
    rw [hget]
    simp only [hv, if_false, hn]
    by_cases h0 : n = 0
    · rw [if_pos h0, if_pos h0]
    · rw [if_neg h0, if_neg h0]
      by_cases h1 : n < 0
      · rw [if_pos h1, if_pos h1, jsSliceFrom_eq]
        unfold jsSliceClamp
        rw [if_neg (by omega : ¬ -n < 0), drop_min_length]
      · rw [if_neg h1, if_neg h1, jsSliceFrom_eq]
        unfold jsSliceClamp
        rw [if_pos (by omega : -n < 0)]
        have he : ((t.length : Int) + -n).toNat = t.length - n.toNat := by omega
        rw [he]
  · intro strict fuel vm fs e hferr hx hfs
    have hres : resolveNestedPath [S "x"] false ⟨vm, strict⟩ [] = .ok (mapGet vm (S "x")) := by
      unfold resolveNestedPath
      have h1 : mapHas ([] : LoopMap) (S "x") = false := rfl
      simp only [List.headD, List.tail_cons, h1, hx, Bool.false_or, Bool.not_true, if_true,
        if_false, Bool.false_eq_true, Bool.true_eq_false, resolveNestedPath.go]
    have hvv : visitVariable [S "x"] none fs ⟨vm, strict⟩ [] = .error e := by
      unfold visitVariable
      simp only [show isMathExpression (joinWith [S "x"] (S ".")) = false from rfl,
        Bool.false_eq_true, if_false, Option.isSome_none]
      simp only [hres, exceptBind_ok]
      rw [if_pos hfs]
      simp only [hferr, exceptBind_err]
    simp only [visit, hvv, exceptBind_err]

/-- C8 witness: the amended head/tail behaviour at `"hello"` with
parameter `-2` (head drops the last two characters) and `2`/`-2` for tail. -/
theorem c8_head_tail_filters_witness :
    applyHeadFilter (S "hello") [(S "value", S "-2")] = .ok (S "hel") ∧
    applyTailFilter (S "hello") [(S "value", S "-2")] = .ok (S "llo") := by
  have h := c8_head_tail_filters (S "hello") (S "-2") (-2) (by decide) rfl
  exact ⟨h.1, h.2.1⟩

/-- C5: the numeric comparison operators route both resolved operands
through `evaluateNumericComparison`; a non-coercible operand there is a
TypeError; two coercible operands compare numerically; and the expression
evaluator takes no strict-mode input, so a condition error propagates out
of an IF node identically under both modes. -/
theorem c5_numeric_comparison_typeerror :
    (∀ expr vars i op, findComparison expr 0 false none = some (i, op) →
      (op = S ">" ∨ op = S "<" ∨ op = S ">=" ∨ op = S "<=") →
      tryEvaluateComparison expr vars = (do
        let b ← evaluateNumericComparison (resolveValue (jsTrim (expr.take i)) vars)
          (resolveValue (jsTrim (expr.drop (i + op.length))) vars) op
        pure (some b))) ∧
    (∀ left right op, tryCoerceToNumber left = none ∨ tryCoerceToNumber right = none →
      ∃ m s, evaluateNumericComparison left right op = .error (.typeError m 1 1 s)) ∧
    (∀ left right a b, tryCoerceToNumber left = some a → tryCoerceToNumber right = some b →
      evaluateNumericComparison left right (S ">") = .ok (decide (a > b)) ∧
      evaluateNumericComparison left right (S "<") = .ok (decide (a < b)) ∧
      evaluateNumericComparison left right (S ">=") = .ok (decide (a ≥ b)) ∧
      evaluateNumericComparison left right (S "<=") = .ok (decide (a ≤ b))) ∧
    (∀ cond cs alt ln col vm lm e fuel,
      evaluateCondition cond (getAllVariables ⟨vm, true⟩ lm) = .error e →
      ∀ strict : Bool, visit (fuel + 1) (.ifN cond cs alt ln col) ⟨vm, strict⟩ lm = .error e) := by
  refine ⟨?_, ?_, ?_, ?_⟩
  · intro expr vars i op hfind hop
    unfold tryEvaluateComparison
    rw [hfind]
    rcases hop with h | h | h | h <;> subst h <;> rfl
  · intro left right op h
    unfold evaluateNumericComparison
    rcases h with h | h
    · rw [h]
      cases tryCoerceToNumber right <;> exact ⟨_, _, rfl⟩
    · rw [h]
      cases tryCoerceToNumber left <;> exact ⟨_, _, rfl⟩
  · intro left right a b ha hb
    unfold evaluateNumericComparison
    rw [ha, hb]
    exact ⟨rfl, rfl, rfl, rfl⟩
  · intro cond cs alt ln col vm lm e fuel hcond strict
    simp only [visit]
    rw [show getAllVariables ⟨vm, strict⟩ lm = getAllVariables ⟨vm, true⟩ lm from rfl]
    rw [hcond]
    rfl

/-- C5 witness: a non-numeric left operand of `>` raises the TypeError,
and `5 > 3` evaluates numerically. -/
theorem c5_numeric_comparison_witness :
    tryCoerceToNumber (.vStr (S "zzz")) = none ∧
    (∃ m s, evaluateNumericComparison (.vStr (S "zzz")) (.vNum 1) (S ">")
      = .error (.typeError m 1 1 s)) ∧
    evaluateNumericComparison (.vNum 5) (.vNum 3) (S ">") = .ok true := by
  refine ⟨rfl, ?_, ?_⟩
  · exact c5_numeric_comparison_typeerror.2.1 (.vStr (S "zzz")) (.vNum 1) (S ">") (Or.inl rfl)
  · exact (c5_numeric_comparison_typeerror.2.2.1 (.vNum 5) (.vNum 3) 5 3 rfl rfl).1

/-- With absence allowed, the interpreter's path resolution never
throws. -/
theorem resolveNestedPath_allowUndefined (path : List Str) (C : Ctx) (lm : LoopMap) :
    ∃ v, resolveNestedPath path true C lm = .ok v := by
  unfold resolveNestedPath
  by_cases h : (!(mapHas lm (path.headD []) || mapHas C.vars (path.headD []))) = true
  · rw [if_pos h]
    exact ⟨_, rfl⟩
  · rw [if_neg h]
    exact ⟨_, rfl⟩

/-- Every filter error is a plain `Error` (the filter layer never throws a
MissingVariableError). -/
theorem applyFilter_error_generic (t : Str) (f : FilterCall) (e : Err)
    (h : applyFilter t f = .error e) : ∃ m, e = .genericError m := by
  unfold applyFilter applyHeadFilter applyTailFilter at h
  repeat' split at h
  all_goals first
    | exact ⟨_, (Except.error.inj h).symm⟩
    | cases h

/-- Filter-chain errors are plain `Error`s. -/
theorem applyFilters_error_generic :
    ∀ fs (t : Str) (e : Err), applyFilters t fs = .error e → ∃ m, e = .genericError m := by
  intro fs
  induction fs with
  | nil =>
    intro t e h
    cases h
  | cons f rest ih =>
    intro t e h
    unfold applyFilters at h
    cases hf : applyFilter t f with
    | error e' =>
        rw [hf, exceptBind_err] at h
        cases h
        exact applyFilter_error_generic _ _ _ hf
    | ok t' =>
        rw [hf, exceptBind_ok] at h
        exact ih _ _ h

/-- Rendering a string value yields the string itself. -/
theorem valueToString_str (s : Str) : valueToString (.vStr s) = s := by
  unfold valueToString
  by_cases h : s = []
  · subst h
    rfl
  · simp only [show (Value.vStr s).isNullish = false from rfl, Bool.false_eq_true, if_false]
    show (if s = [] then [] else s) = s
    rw [if_neg h]

/-- The variable renderer with a `??` default never raises a
MissingVariableError. -/
theorem visitVariable_default_no_missing (path : List Str) (d : Str) (filters : List Str)
    (C : Ctx) (lm : LoopMap) (e : Err)
    (h : visitVariable path (some d) filters C lm = .error e) : ∃ m, e = .genericError m := by
  unfold visitVariable at h
  obtain ⟨v0, hres⟩ := resolveNestedPath_allowUndefined path C lm
  by_cases hm : isMathExpression (joinWith path (S ".")) = true
  · simp only [hm, if_true] at h
    cases hEv : evaluateMathExpression (joinWith path (S ".")) (getAllVariables C lm) with
    | ok r =>
        simp only [hEv] at h
        cases h
    | error me =>
        simp only [hEv, Option.isSome_some, hres, exceptBind_ok] at h
        by_cases hf : filters = []
        · rw [if_neg (by simp [hf])] at h
          cases h
        · rw [if_pos (by simp [hf])] at h
          cases ha : applyFilters (valueToString (if !isTruthy v0 then Value.vStr d else v0))
              (filters.map parseFilter) with
          | error e' =>
              simp only [ha, exceptBind_err] at h
              cases h
              exact applyFilters_error_generic _ _ _ ha
          | ok out =>
              simp only [ha, exceptBind_ok] at h
              cases h
  · rw [Bool.not_eq_true] at hm
    simp only [hm, Bool.false_eq_true, if_false, Option.isSome_some, hres, exceptBind_ok] at h
    by_cases hf : filters = []
    · rw [if_neg (by simp [hf])] at h
      cases h
    · rw [if_pos (by simp [hf])] at h
      cases ha : applyFilters (valueToString (if !isTruthy v0 then Value.vStr d else v0))
          (filters.map parseFilter) with
      | error e' =>
          simp only [ha, exceptBind_err] at h
          cases h
          exact applyFilters_error_generic _ _ _ ha
      | ok out =>
          simp only [ha, exceptBind_ok] at h
          cases h

/-- C9: a variable tag carrying a `??` default never throws
MissingVariableError — resolution is performed with absence permitted
even in strict mode — and with no filters an absent root renders exactly
the default literal text. -/
theorem c9_default_suppresses_missing :
    (∀ fuel path d filters C lm nm l c av,
      visit (fuel + 1) (.varN path (some d) filters 1 1) C lm
        ≠ .error (.missingVariable nm l c av)) ∧
    (∀ (fuel : Nat) path (d : Str) (C : Ctx) (lm : LoopMap) (ln col : Nat),
      isMathExpression (joinWith path (S ".")) = false →
      mapHas lm (path.headD []) = false →
      mapHas C.vars (path.headD []) = false →
      visit (fuel + 1) (.varN path (some d) [] ln col) C lm = .ok (d, lm)) := by
  constructor
  · intro fuel path d filters C lm nm l c av h
    simp only [visit] at h
    cases hv : visitVariable path (some d) filters C lm with
    | ok s =>
        rw [hv, exceptBind_ok] at h
        cases h
    | error e' =>
        rw [hv, exceptBind_err] at h
        cases h
        obtain ⟨m, hm⟩ := visitVariable_default_no_missing path d filters C lm _ hv
        cases hm
  · intro fuel path d C lm ln col hmath hlm hvm
    simp only [visit]
    have hres : resolveNestedPath path true C lm = .ok .vNull := by
      unfold resolveNestedPath
      simp only [hlm, hvm, Bool.or_self, Bool.not_false, if_true]
      rfl
    have hvv : visitVariable path (some d) [] C lm = .ok d := by
      unfold visitVariable
      simp only [hmath, Bool.false_eq_true, if_false, Option.isSome_some, hres, exceptBind_ok]
      rw [if_neg (by simp)]
      simp only [show isTruthy Value.vNull = false from rfl, Bool.not_false, if_true]
      rw [valueToString_str]
      rfl
    rw [hvv, exceptBind_ok]
    rfl

/-- C9 witness: `${{missing ?? "dflt"}}` renders the default under strict
mode. -/
theorem c9_default_suppresses_missing_witness :
    visit 5 (.varN [S "missing"] (some (S "dflt")) [] 1 1) ⟨[(S "a", .vNum 1)], true⟩ []
      = .ok (S "dflt", []) ∧
    (∀ nm l c av, visit 5 (.varN [S "missing"] (some (S "dflt")) [] 1 1)
      ⟨[(S "a", .vNum 1)], true⟩ [] ≠ .error (.missingVariable nm l c av)) := by
  constructor
  · exact c9_default_suppresses_missing.2 4 [S "missing"] (S "dflt")
      ⟨[(S "a", .vNum 1)], true⟩ [] 1 1 (by decide) (by decide) (by decide)
  · intro nm l c av
    exact c9_default_suppresses_missing.1 4 [S "missing"] (S "dflt") [] _ [] nm l c av

/-- C2: when a FOR node runs its iteration path to completion the
resulting loop overlay is the empty map (`loopContext.clear()` erases the
whole overlay, not just this loop's bindings); concretely, an inner FOR
nested in an outer FOR wipes the outer item binding for the rest of the
outer iteration — `${\x7b\x7ba\x7d\x7d}` after the inner loop renders empty in
lenient mode and throws in strict mode, while without the inner loop it
renders the outer item. -/
theorem c2_for_clears_overlay :
    (∀ fuel iterable itemName body ln col (C : Ctx) (lm : LoopMap) v arr out lmOut,
      resolveNestedPath iterable false C lm = .ok v →
      tryCoerceToArray v = some arr →
      visit (fuel + 1) (.forN iterable itemName body ln col) C lm = .ok (out, lmOut) →
      lmOut = []) ∧
    visit 9 (.forN [S "xs"] (S "a")
        [.forN [S "ys"] (S "b") [] 1 1, .varN [S "a"] none [] 1 1] 1 1)
      ⟨[(S "xs", .vArr [.vStr (S "x1")]), (S "ys", .vArr [.vStr (S "y1")])], false⟩ []
      = .ok ([], []) ∧
    visit 9 (.forN [S "xs"] (S "a") [.varN [S "a"] none [] 1 1] 1 1)
      ⟨[(S "xs", .vArr [.vStr (S "x1")]), (S "ys", .vArr [.vStr (S "y1")])], false⟩ []
      = .ok (S "x1", []) ∧
    visit 9 (.forN [S "xs"] (S "a")
        [.forN [S "ys"] (S "b") [] 1 1, .varN [S "a"] none [] 1 1] 1 1)
      ⟨[(S "xs", .vArr [.vStr (S "x1")]), (S "ys", .vArr [.vStr (S "y1")])], true⟩ []
      = .error (.missingVariable (S "a") 1 1 [S "xs", S "ys"]) := by
  refine ⟨?_, rfl, rfl, rfl⟩
  intro fuel iterable itemName body ln col C lm v arr out lmOut hres hco hv
  simp only [visit, hres, exceptBind_ok, hco] at hv
  cases hfi : forIter fuel itemName body arr 0 arr.length C lm with
  | error e =>
      simp only [hfi, exceptBind_err] at hv
      cases hv
  | ok p =>
      obtain ⟨o, l⟩ := p
      simp only [hfi, exceptBind_ok] at hv
      cases hv
      rfl

/-- C2 witness: a concrete FOR run from a stale nonempty overlay ends with
the overlay cleared. -/
theorem c2_for_clears_overlay_witness :
    visit 9 (.forN [S "xs"] (S "a") [] 1 1) ⟨[(S "xs", .vArr [.vNum 1])], true⟩
      [(S "stale", .vNum 0)] = .ok ([], []) ∧ (([] : LoopMap) = []) := by
  refine ⟨rfl, ?_⟩
  exact c2_for_clears_overlay.1 8 [S "xs"] (S "a") [] 1 1
    ⟨[(S "xs", .vArr [.vNum 1])], true⟩ [(S "stale", .vNum 0)]
    (.vArr [.vNum 1]) [.vNum 1] [] [] rfl rfl rfl

/-- C1 counterexample: inside a FOR loop the item binding `x` is live
(the second render proves `${\x7b\x7bx\x7d\x7d}` produces the items), yet the
MissingVariableError raised for an unbound root enumerates only the
constructor-supplied variable names `["xs"]` — the currently bound loop
name `x` is not in the list. -/
theorem c1_missing_enumerates_only_caller_keys :
    resolveTemplate 30 (S "{{FOR xs AS x}}${{missing}}{{END_FOR}}")
      [(S "xs", .vArr [.vStr (S "a"), .vStr (S "b")])] true
      = .error (.missingVariable (S "missing") 1 1 [S "xs"]) ∧
    (S "x") ∉ [S "xs"] ∧
    resolveTemplate 30 (S "{{FOR xs AS x}}${{x}}{{END_FOR}}")
      [(S "xs", .vArr [.vStr (S "a"), .vStr (S "b")])] true = .ok (S "ab") := by
  refine ⟨rfl, by decide, rfl⟩

/-- C1 (amended): a plain variable tag whose root is bound neither in the
loop overlay nor the caller map raises MissingVariableError in strict mode
— its available-variables list being exactly the caller map's keys, not
every currently bound name — and renders the empty string in lenient
mode. -/
theorem c1_missing_root_variable :
    ∀ (fuel : Nat) path (C : Ctx) (lm : LoopMap) (ln col : Nat),
      isMathExpression (joinWith path (S ".")) = false →
      mapHas lm (path.headD []) = false →
      mapHas C.vars (path.headD []) = false →
      visit (fuel + 1) (.varN path none [] ln col) C lm
        = (if C.strictMode then
            .error (.missingVariable (path.headD []) 1 1 (mapKeys C.vars))
          else .ok ([], lm)) := by
  intro fuel path C lm ln col hmath hlm hvm
  by_cases hstrict : C.strictMode = true
  · rw [if_pos hstrict]
    have hres : resolveNestedPath path false C lm
        = .error (.missingVariable (path.headD []) 1 1 (mapKeys C.vars)) := by
      unfold resolveNestedPath
      simp only [hlm, hvm, hstrict]
      rfl
    simp only [visit]
    have hvv : visitVariable path none [] C lm
        = .error (.missingVariable (path.headD []) 1 1 (mapKeys C.vars)) := by
      unfold visitVariable
      simp only [hmath, Bool.false_eq_true, if_false, Option.isSome_none, hres, exceptBind_err]
    rw [hvv]
    exact exceptBind_err _ _
  · rw [if_neg hstrict]
    rw [Bool.not_eq_true] at hstrict
    have hres : resolveNestedPath path false C lm = .ok .vNull := by
      unfold resolveNestedPath
      simp only [hlm, hvm, hstrict]
      rfl
    simp only [visit]
    have hvv : visitVariable path none [] C lm = .ok [] := by
      unfold visitVariable
      simp only [hmath, Bool.false_eq_true, if_false, Option.isSome_none, hres, exceptBind_ok]
      rw [if_neg (by simp)]
      rfl
    rw [hvv, exceptBind_ok]
    rfl

/-- C1 witness: a concrete unbound root under each mode. -/
theorem c1_missing_root_variable_witness :
    visit 3 (.varN [S "missing"] none [] 1 1) ⟨[(S "xs", .vNum 1)], true⟩ []
      = .error (.missingVariable (S "missing") 1 1 [S "xs"]) ∧
    visit 3 (.varN [S "missing"] none [] 1 1) ⟨[(S "xs", .vNum 1)], false⟩ []
      = .ok ([], []) := by
  constructor
  · exact c1_missing_root_variable 2 [S "missing"] ⟨[(S "xs", .vNum 1)], true⟩ [] 1 1
      rfl rfl rfl
  · exact c1_missing_root_variable 2 [S "missing"] ⟨[(S "xs", .vNum 1)], false⟩ [] 1 1
      rfl rfl rfl

/-- C6 counterexample: a WHEN arm written as a bare identifier does not
match by its literal text — `extractQuotedValue` finds no quoted region
and stores the empty string, so `WHEN active` never matches the value
`"active"` and the CASE falls to DEFAULT; and a quoted value with an
escaped quote is not unescaped: the lazy regex stops at the backslash-
escaped quote, yielding `a\` instead of `a"b`. -/
theorem c6_bare_when_counterexample :
    extractQuotedValue (S "WHEN active") = [] ∧
    resolveTemplate 30
      (S "{{CASE status}}{{WHEN active}}YES{{END_WHEN}}{{DEFAULT}}NO{{END_DEFAULT}}{{END_CASE}}")
      [(S "status", .vStr (S "active"))] true = .ok (S "NO") ∧
    S "NO" ≠ S "YES" ∧
    extractQuotedValue (S "WHEN \"a\\\"b\"") = S "a\\" ∧
    S "a\\" ≠ S "a\"b" := by
  exact ⟨rfl, rfl, by decide, rfl, by decide⟩

/-- A string with no quote character yields the empty string from the
quoted-value scan. -/
theorem extractQuotedValueGo_no_quote (s : Str) (hq : ∀ c ∈ s, isQuoteChar c = false) :
    ∀ fuel i, extractQuotedValueGo s fuel i = [] := by
  intro fuel
  induction fuel with
  | zero => intro i; rfl
  | succ fuel ih =>
      intro i
      unfold extractQuotedValueGo
      by_cases hi : i < s.length
      · rw [if_pos hi]
        have hg : isQuoteChar (s.getD i ' ') = false := by
          rw [List.getD_eq_getElem s ' ' hi]
          exact hq _ (List.getElem_mem hi)
        rw [hg]
        simp only [Bool.false_eq_true, if_false]
        exact ih (i + 1)
      · rw [if_neg hi]

/-- C6 (amended): the CASE renderer returns the body of the first WHEN arm
whose stored value string-equals the rendered form of the resolved
expression, else the DEFAULT body when present, else the empty string; but
the stored WHEN value comes only from a quoted region (lazy, first
closing quote of either kind, no unescaping) — a bare-identifier WHEN
stores the empty string, and a quoted WHEN matches literally. -/
theorem c6_case_first_match :
    (∀ (fuel : Nat) expression cases dflt ln col (C : Ctx) (lm : LoopMap) v,
      resolveNestedPath (splitOnChar expression '.') false C lm = .ok v →
      visit (fuel + 1) (.caseN expression cases dflt ln col) C lm =
        (match cases.find? (fun arm => arm.1 = valueToString v) with
         | some arm => visitMany fuel arm.2 C lm
         | none =>
             match dflt with
             | some body => visitMany fuel body C lm
             | none => .ok ([], lm))) ∧
    (∀ s : Str, (∀ c ∈ s, isQuoteChar c = false) → extractQuotedValue s = []) ∧
    extractQuotedValue (S "WHEN \"active\"") = S "active" ∧
    resolveTemplate 30
      (S "\x7b\x7bCASE status\x7d\x7d\x7b\x7bWHEN \"active\"\x7d\x7dYES\x7b\x7bEND_WHEN\x7d\x7d\x7b\x7bDEFAULT\x7d\x7dNO\x7b\x7bEND_DEFAULT\x7d\x7d\x7b\x7bEND_CASE\x7d\x7d")
      [(S "status", .vStr (S "active"))] true = .ok (S "YES") := by
  refine ⟨?_, ?_, rfl, rfl⟩
  · intro fuel expression cases dflt ln col C lm v hres
    simp only [visit, hres, exceptBind_ok]
  · intro s hq
    exact extractQuotedValueGo_no_quote s hq (s.length + 1) 0

/-- C6 witness: the first-match equation at a concrete CASE node, and the
no-quote clause at a concrete bare identifier. -/
theorem c6_case_first_match_witness :
    visit 9 (.caseN (S "status") [(S "active", [.textN (S "YES") 1 1])]
        (some [.textN (S "NO") 1 1]) 1 1)
      ⟨[(S "status", .vStr (S "active"))], true⟩ [] = .ok (S "YES", []) ∧
    extractQuotedValue (S "WHEN foo") = [] := by
  constructor
  · have h := c6_case_first_match.1 8 (S "status")
      [(S "active", [.textN (S "YES") 1 1])] (some [.textN (S "NO") 1 1]) 1 1
      ⟨[(S "status", .vStr (S "active"))], true⟩ [] (.vStr (S "active")) rfl
    rw [h]
    rfl
  · exact c6_case_first_match.2.1 (S "WHEN foo") (by decide)

/-- A successful body-collection run stops exactly at one of its stop
tokens. -/
theorem parseNodesUntil_stops : ∀ (fuel : Nat) toks pos stops errMsg el ec sug ns p',
    parseNodesUntil fuel toks pos stops errMsg el ec sug = .ok (ns, p') →
    stops.any (fun t => pCheck toks p' t) = true := by
  intro fuel
  induction fuel with
  | zero =>
      intro toks pos stops em el ec sg ns p' h
      simp only [parseNodesUntil] at h
      cases h
  | succ fuel ih =>
      intro toks pos stops em el ec sg ns p' h
      simp only [parseNodesUntil] at h
      by_cases hs : stops.any (fun t => pCheck toks pos t) = true
      · rw [if_pos hs] at h
        cases h
        exact hs
      · rw [if_neg hs] at h
        by_cases he : pAtEnd toks pos = true
        · rw [if_pos he] at h
          cases h
        · rw [if_neg he] at h
          cases hn : parseNode fuel toks pos with
          | error e =>
              simp only [hn, exceptBind_err] at h
              cases h
          | ok q =>
              obtain ⟨n?, pos'⟩ := q
              simp only [hn, exceptBind_ok] at h
              cases hr : parseNodesUntil fuel toks pos' stops em el ec sg with
              | error e =>
                  simp only [hr, exceptBind_err] at h
                  cases h
              | ok q2 =>
                  obtain ⟨ns2, p2⟩ := q2
                  simp only [hr, exceptBind_ok] at h
                  cases h
                  exact ih _ _ _ _ _ _ _ _ _ hr

/-- C10: END_WHEN and END_DEFAULT are optional. A successful parseWhen
leaves the cursor on a WHEN, DEFAULT or END_CASE token (body terminated
without a closer) or just past an END_WHEN (closer consumed when
present); a successful parseDefault likewise stops on END_CASE or just
past an END_DEFAULT; and a full CASE template with neither closer parses
and renders without SyntaxError. -/
theorem c10_optional_closers :
    (∀ (fuel : Nat) toks pos value body p2,
      parseWhen (fuel + 1) toks pos = .ok ((value, body), p2) →
      (pCheck toks p2 .WHEN = true ∨ pCheck toks p2 .DEFAULT = true ∨
       pCheck toks p2 .END_CASE = true ∨
       (1 ≤ p2 ∧ pCheck toks (p2 - 1) .END_WHEN = true))) ∧
    (∀ (fuel : Nat) toks pos body p2,
      parseDefault (fuel + 1) toks pos = .ok (body, p2) →
      (pCheck toks p2 .END_CASE = true ∨
       (1 ≤ p2 ∧ pCheck toks (p2 - 1) .END_DEFAULT = true))) ∧
    resolveTemplate 30
      (S "\x7b\x7bCASE status\x7d\x7d\x7b\x7bWHEN \"active\"\x7d\x7dYES\x7b\x7bWHEN \"x\"\x7d\x7dZ\x7b\x7bDEFAULT\x7d\x7dNO\x7b\x7bEND_CASE\x7d\x7d")
      [(S "status", .vStr (S "active"))] true = .ok (S "YES") ∧
    resolveTemplate 30
      (S "\x7b\x7bCASE status\x7d\x7d\x7b\x7bWHEN \"q\"\x7d\x7dYES\x7b\x7bWHEN \"x\"\x7d\x7dZ\x7b\x7bDEFAULT\x7d\x7dNO\x7b\x7bEND_CASE\x7d\x7d")
      [(S "status", .vStr (S "active"))] true = .ok (S "NO") := by
  refine ⟨?_, ?_, rfl, rfl⟩
  · intro fuel toks pos value body p2 h
    simp only [parseWhen] at h
    cases hc : pConsume toks pos .WHEN with
    | error e =>
        simp only [hc, exceptBind_err] at h
        cases h
    | ok q =>
        obtain ⟨tok, p1⟩ := q
        simp only [hc, exceptBind_ok] at h
        cases hp : parseNodesUntil fuel toks p1 [.END_WHEN, .WHEN, .DEFAULT, .END_CASE]
            (S "Unclosed \x7b\x7bWHEN\x7d\x7d block") tok.line tok.column
            (S "Add \x7b\x7bEND_WHEN\x7d\x7d") with
        | error e =>
            simp only [hp, exceptBind_err] at h
            cases h
        | ok q2 =>
            obtain ⟨bd, p2'⟩ := q2
            simp only [hp, exceptBind_ok] at h
            have hstop := parseNodesUntil_stops fuel toks p1
              [.END_WHEN, .WHEN, .DEFAULT, .END_CASE]
              (S "Unclosed \x7b\x7bWHEN\x7d\x7d block") tok.line tok.column
              (S "Add \x7b\x7bEND_WHEN\x7d\x7d") bd p2' hp
            by_cases hew : pCheck toks p2' .END_WHEN = true
            · rw [if_pos hew] at h
              rw [show pConsume toks p2' .END_WHEN
                  = .ok (pCurrent toks p2', p2' + 1) from by
                unfold pConsume
                rw [if_pos hew]] at h
              rw [exceptBind_ok] at h
              cases h
              exact Or.inr (Or.inr (Or.inr ⟨by omega, by simpa using hew⟩))
            · rw [if_neg hew] at h
              cases h
              simp only [List.any_cons, List.any_nil, Bool.or_false, Bool.or_eq_true] at hstop
              rcases hstop with h1 | h2 | h3 | h4
              · exact absurd h1 hew
              · exact Or.inl h2
              · exact Or.inr (Or.inl h3)
              · exact Or.inr (Or.inr (Or.inl h4))
  · intro fuel toks pos body p2 h
    simp only [parseDefault] at h
    cases hc : pConsume toks pos .DEFAULT with
    | error e =>
        simp only [hc, exceptBind_err] at h
        cases h
    | ok q =>
        obtain ⟨tok, p1⟩ := q
        simp only [hc, exceptBind_ok] at h
        cases hp : parseNodesUntil fuel toks p1 [.END_DEFAULT, .END_CASE]
            (S "Unclosed \x7b\x7bDEFAULT\x7d\x7d block") tok.line tok.column
            (S "Add \x7b\x7bEND_DEFAULT\x7d\x7d") with
        | error e =>
            simp only [hp, exceptBind_err] at h
            cases h
        | ok q2 =>
            obtain ⟨bd, p2'⟩ := q2
            simp only [hp, exceptBind_ok] at h
            have hstop := parseNodesUntil_stops fuel toks p1 [.END_DEFAULT, .END_CASE]
              (S "Unclosed \x7b\x7bDEFAULT\x7d\x7d block") tok.line tok.column
              (S "Add \x7b\x7bEND_DEFAULT\x7d\x7d") bd p2' hp
            by_cases hed : pCheck toks p2' .END_DEFAULT = true
            · rw [if_pos hed] at h
              rw [show pConsume toks p2' .END_DEFAULT
                  = .ok (pCurrent toks p2', p2' + 1) from by
                unfold pConsume
                rw [if_pos hed]] at h
              rw [exceptBind_ok] at h
              cases h
              exact Or.inr ⟨by omega, by simpa using hed⟩
            · rw [if_neg hed] at h
              cases h
              simp only [List.any_cons, List.any_nil, Bool.or_false, Bool.or_eq_true] at hstop
              rcases hstop with h1 | h2
              · exact absurd h1 hed
              · exact Or.inl h2

/-- C10 witness: a WHEN body terminated by END_CASE with no END_WHEN
present, and a DEFAULT body terminated by END_CASE with no END_DEFAULT. -/
theorem c10_optional_closers_witness :
    (pCheck [(⟨.WHEN, S "WHEN \"a\"", 1, 1⟩ : Token), ⟨.TEXT, S "hi", 1, 5⟩,
        ⟨.END_CASE, S "END_CASE", 1, 20⟩, ⟨.EOF, [], 1, 30⟩] 2 .WHEN = true ∨
     pCheck [(⟨.WHEN, S "WHEN \"a\"", 1, 1⟩ : Token), ⟨.TEXT, S "hi", 1, 5⟩,
        ⟨.END_CASE, S "END_CASE", 1, 20⟩, ⟨.EOF, [], 1, 30⟩] 2 .DEFAULT = true ∨
     pCheck [(⟨.WHEN, S "WHEN \"a\"", 1, 1⟩ : Token), ⟨.TEXT, S "hi", 1, 5⟩,
        ⟨.END_CASE, S "END_CASE", 1, 20⟩, ⟨.EOF, [], 1, 30⟩] 2 .END_CASE = true ∨
     (1 ≤ 2 ∧ pCheck [(⟨.WHEN, S "WHEN \"a\"", 1, 1⟩ : Token), ⟨.TEXT, S "hi", 1, 5⟩,
        ⟨.END_CASE, S "END_CASE", 1, 20⟩, ⟨.EOF, [], 1, 30⟩] (2 - 1) .END_WHEN = true)) ∧
    (pCheck [(⟨.DEFAULT, S "DEFAULT", 1, 1⟩ : Token), ⟨.TEXT, S "no", 1, 5⟩,
        ⟨.END_CASE, S "END_CASE", 1, 20⟩, ⟨.EOF, [], 1, 30⟩] 2 .END_CASE = true ∨
     (1 ≤ 2 ∧ pCheck [(⟨.DEFAULT, S "DEFAULT", 1, 1⟩ : Token), ⟨.TEXT, S "no", 1, 5⟩,
        ⟨.END_CASE, S "END_CASE", 1, 20⟩, ⟨.EOF, [], 1, 30⟩] (2 - 1) .END_DEFAULT = true)) := by
  constructor
  · exact c10_optional_closers.1 9
      [⟨.WHEN, S "WHEN \"a\"", 1, 1⟩, ⟨.TEXT, S "hi", 1, 5⟩,
       ⟨.END_CASE, S "END_CASE", 1, 20⟩, ⟨.EOF, [], 1, 30⟩] 0 (S "a")
      [.textN (S "hi") 1 5] 2 rfl
  · exact c10_optional_closers.2.1 9
      [⟨.DEFAULT, S "DEFAULT", 1, 1⟩, ⟨.TEXT, S "no", 1, 5⟩,
       ⟨.END_CASE, S "END_CASE", 1, 20⟩, ⟨.EOF, [], 1, 30⟩] 0
      [.textN (S "no") 1 5] 2 rfl

/-- The spec's notion of a correctly nested token sequence: non-block
tokens pass through, and each opener wraps a correctly nested inner
segment closed by its own END closer, followed by a correctly nested
remainder. -/
inductive Nested : List TokenType → Prop
  | nil : Nested []
  | pass (t : TokenType) (l : List TokenType) :
      closerFor t = none → isOpener t = false → Nested l → Nested (t :: l)
  | block (o c : TokenType) (inner after : List TokenType) :
      isOpener o = true → closerFor c = some o →
      Nested inner → Nested after → Nested (o :: inner ++ c :: after)

/-- A word that validly continues from a pending stack of open blocks and
closes them all. -/
inductive Closes : List TokenType → List TokenType → Prop
  | nil : Closes [] []
  | pass (t : TokenType) (l p : List TokenType) :
      closerFor t = none → isOpener t = false → Closes l p → Closes (t :: l) p
  | push (o : TokenType) (l p : List TokenType) :
      isOpener o = true → Closes l (o :: p) → Closes (o :: l) p
  | pop (c o : TokenType) (l p : List TokenType) :
      closerFor c = some o → Closes l p → Closes (c :: l) (o :: p)

/-- Block openers map to no closer entry. -/
theorem opener_closerFor_none (t : TokenType) (h : isOpener t = true) :
    closerFor t = none := by
  cases t <;> (try cases h) <;> rfl

/-- Closer tokens are not openers. -/
theorem closer_not_opener (t : TokenType) (o : TokenType) (h : closerFor t = some o) :
    isOpener t = false := by
  cases t <;> (try cases h) <;> rfl

/-- A nested word composes on the left of any valid continuation. -/
theorem nested_closes {a : List TokenType} (h : Nested a) :
    ∀ b p, Closes b p → Closes (a ++ b) p := by
  induction h with
  | nil =>
      intro b p hb
      simpa using hb
  | pass t l h1 h2 h3 ih =>
      intro b p hb
      exact Closes.pass t (l ++ b) p h1 h2 (ih b p hb)
  | block o c inner after ho hc hi ha ihi iha =>
      intro b p hb
      have h1 : Closes (inner ++ c :: (after ++ b)) (o :: p) :=
        ihi _ _ (Closes.pop c o (after ++ b) p hc (iha b p hb))
      have h2 := Closes.push o (inner ++ c :: (after ++ b)) p ho h1
      simpa [List.append_assoc] using h2

/-- A nested word is a valid run from the empty stack. -/
theorem closes_of_nested {a : List TokenType} (h : Nested a) : Closes a [] := by
  simpa using nested_closes h [] [] Closes.nil

/-- Peeling a pending stack: the word factors into nested segments
separated by the closers of the pending opens, oldest last. -/
def Peeled : List TokenType → List TokenType → Prop
  | evs, [] => Nested evs
  | evs, o :: p => ∃ a c b, evs = a ++ c :: b ∧ Nested a ∧ closerFor c = some o ∧ Peeled b p

/-- Every valid run factors as a peeling of its pending stack. -/
theorem closes_peeled : ∀ {evs p : List TokenType}, Closes evs p → Peeled evs p := by
  intro evs p h
  induction h with
  | nil => exact Nested.nil
  | pass t l pp h1 h2 h3 ih =>
      cases pp with
      | nil => exact Nested.pass t l h1 h2 ih
      | cons o p' =>
          obtain ⟨a, c, b, he, hna, hc, hp⟩ := ih
          exact ⟨t :: a, c, b, by rw [he]; rfl, Nested.pass t a h1 h2 hna, hc, hp⟩
  | push o l pp ho hcl ih =>
      obtain ⟨a, c, b, he, hna, hc, hp⟩ := ih
      cases pp with
      | nil =>
          rw [he]
          exact Nested.block o c a b ho hc hna hp
      | cons o2 p' =>
          obtain ⟨a2, c2, b2, he2, hna2, hc2, hp2⟩ := hp
          refine ⟨o :: a ++ c :: a2, c2, b2, ?_, Nested.block o c a a2 ho hc hna hna2, hc2, hp2⟩
          rw [he, he2]
          simp
  | pop c o l pp hc hcl ih =>
      exact ⟨[], c, l, rfl, Nested.nil, hc, ih⟩

/-- A valid run from the empty stack is a nested word. -/
theorem nested_of_closes {evs : List TokenType} (h : Closes evs []) : Nested evs :=
  closes_peeled h

/-- `validateBlocks`'s loop succeeds exactly on words that validly close
the pending stack. -/
theorem validateBlocksGo_ok_iff : ∀ (ts : List Token) (s : List (TokenType × Nat × Nat)),
    validateBlocksGo ts s = .ok () ↔ Closes (ts.map Token.type) (s.map Prod.fst) := by
  intro ts
  induction ts with
  | nil =>
      intro s
      cases s with
      | nil => exact ⟨fun _ => Closes.nil, fun _ => rfl⟩
      | cons top s' =>
          constructor
          · intro h
            simp only [validateBlocksGo] at h
            cases h
          · intro h
            cases h
  | cons t rest ih =>
      intro s
      cases hcc : closerFor t.type with
      | none =>
          by_cases hop : isOpener t.type = true
          · simp only [validateBlocksGo, hop, if_true, hcc, List.map_cons]
            rw [ih ((t.type, t.line, t.column) :: s)]
            simp only [List.map_cons]
            constructor
            · exact fun h => Closes.push t.type (rest.map Token.type) (s.map Prod.fst) hop h
            · intro h
              generalize List.map Prod.fst s = P at h ⊢
              cases h with
              | pass _ _ _ h1 h2 h3 => rw [hop] at h2; cases h2
              | push _ _ _ h1 h2 => exact h2
              | pop _ _ _ _ h1 h2 => rw [hcc] at h1; cases h1
          · rw [Bool.not_eq_true] at hop
            simp only [validateBlocksGo, hop, Bool.false_eq_true, if_false, hcc, List.map_cons]
            rw [ih s]
            constructor
            · exact fun h => Closes.pass t.type (rest.map Token.type) (s.map Prod.fst) hcc hop h
            · intro h
              generalize List.map Prod.fst s = P at h ⊢
              cases h with
              | pass _ _ _ h1 h2 h3 => exact h3
              | push _ _ _ h1 h2 => rw [hop] at h1; cases h1
              | pop _ _ _ _ h1 h2 => rw [hcc] at h1; cases h1
      | some opener =>
          have hop : isOpener t.type = false := closer_not_opener _ _ hcc
          cases s with
          | nil =>
              simp only [validateBlocksGo, hop, Bool.false_eq_true, if_false, hcc,
                List.map_cons, List.map_nil]
              constructor
              · intro h
                cases h
              · intro h
                cases h with
                | pass _ _ _ h1 h2 h3 => rw [hcc] at h1; cases h1
                | push _ _ _ h1 h2 => rw [hop] at h1; cases h1
          | cons top s' =>
              simp only [validateBlocksGo, hop, Bool.false_eq_true, if_false, hcc,
                List.map_cons]
              by_cases htop : top.1 = opener
              · rw [if_pos htop]
                rw [ih s']
                constructor
                · intro h
                  exact Closes.pop t.type top.1 (rest.map Token.type) (s'.map Prod.fst)
                    (by rw [hcc, htop]) h
                · intro h
                  cases h with
                  | pass _ _ _ h1 h2 h3 => rw [hcc] at h1; cases h1
                  | push _ _ _ h1 h2 => rw [hop] at h1; cases h1
                  | pop _ _ _ _ h1 h2 => exact h2
              · rw [if_neg htop]
                constructor
                · intro h
                  cases h
                · intro h
                  cases h with
                  | pass _ _ _ h1 h2 h3 => rw [hcc] at h1; cases h1
                  | push _ _ _ h1 h2 => rw [hop] at h1; cases h1
                  | pop _ _ _ _ h1 h2 =>
                      rw [hcc] at h1
                      injection h1 with h1
                      exact absurd h1.symm htop

/-- The stack left by `validateBlocks`'s loop when no closer error fires
(`none` when a closer error fires first). -/
def stackRun : List Token → List (TokenType × Nat × Nat) →
    Option (List (TokenType × Nat × Nat))
  | [], stack => some stack
  | t :: rest, stack =>
      let stack1 := if isOpener t.type then (t.type, t.line, t.column) :: stack else stack
      match closerFor t.type with
      | none => stackRun rest stack1
      | some opener =>
          match stack1 with
          | top :: stack' => if top.1 = opener then stackRun rest stack' else none
          | [] => none

/-- A run ending with openers still on the stack raises the unclosed-block
error of the most recent one, reporting its starting line. -/
theorem stackRun_unclosed : ∀ (ts : List Token) s top more,
    stackRun ts s = some (top :: more) →
    validateBlocksGo ts s = .error (.syntaxError
      (S "Unclosed \x7b\x7b" ++ underscoreToSpace (tokenTypeStr top.1) ++
        S "\x7d\x7d block starting at line " ++ natToStr top.2.1)
      top.2.1 top.2.2
      (some (S "Add \x7b\x7bEND_" ++ underscoreToSpace (tokenTypeStr top.1) ++ S "\x7d\x7d"))) := by
  intro ts
  induction ts with
  | nil =>
      intro s top more h
      simp only [stackRun] at h
      cases h
      rfl
  | cons t rest ih =>
      intro s top more h
      cases hcc : closerFor t.type with
      | none =>
          by_cases hop : isOpener t.type = true
          · simp only [stackRun, hop, if_true, hcc] at h
            simp only [validateBlocksGo, hop, if_true, hcc]
            exact ih _ _ _ h
          · rw [Bool.not_eq_true] at hop
            simp only [stackRun, hop, Bool.false_eq_true, if_false, hcc] at h
            simp only [validateBlocksGo, hop, Bool.false_eq_true, if_false, hcc]
            exact ih _ _ _ h
      | some opener =>
          have hop : isOpener t.type = false := closer_not_opener _ _ hcc
          cases s with
          | nil =>
              simp only [stackRun, hop, Bool.false_eq_true, if_false, hcc] at h
              cases h
          | cons tp s' =>
              simp only [stackRun, hop, Bool.false_eq_true, if_false, hcc] at h
              simp only [validateBlocksGo, hop, Bool.false_eq_true, if_false, hcc]
              by_cases htop : tp.1 = opener
              · rw [if_pos htop] at h
                rw [if_pos htop]
                exact ih _ _ _ h
              · rw [if_neg htop] at h
                cases h

/-- A run aborted by a closer error makes the loop raise a SyntaxError
immediately. -/
theorem stackRun_none : ∀ (ts : List Token) s, stackRun ts s = none →
    ∃ m l c sug, validateBlocksGo ts s = .error (.syntaxError m l c sug) := by
  intro ts
  induction ts with
  | nil =>
      intro s h
      simp only [stackRun] at h
      cases h
  | cons t rest ih =>
      intro s h
      cases hcc : closerFor t.type with
      | none =>
          by_cases hop : isOpener t.type = true
          · simp only [stackRun, hop, if_true, hcc] at h
            simp only [validateBlocksGo, hop, if_true, hcc]
            exact ih _ h
          · rw [Bool.not_eq_true] at hop
            simp only [stackRun, hop, Bool.false_eq_true, if_false, hcc] at h
            simp only [validateBlocksGo, hop, Bool.false_eq_true, if_false, hcc]
            exact ih _ h
      | some opener =>
          have hop : isOpener t.type = false := closer_not_opener _ _ hcc
          cases s with
          | nil =>
              simp only [validateBlocksGo, hop, Bool.false_eq_true, if_false, hcc]
              exact ⟨_, _, _, _, rfl⟩
          | cons tp s' =>
              simp only [stackRun, hop, Bool.false_eq_true, if_false, hcc] at h
              simp only [validateBlocksGo, hop, Bool.false_eq_true, if_false, hcc]
              by_cases htop : tp.1 = opener
              · rw [if_pos htop] at h
                rw [if_pos htop]
                exact ih _ h
              · rw [if_neg htop]
                exact ⟨_, _, _, _, rfl⟩

/-- C7: given a tag-level-clean scan, `tokenize` returns the token list
iff the opener and END-closer sequence is correctly nested; a leftover
opener raises the unclosed error of the most recent open block, carrying
that block's starting line; a closer mismatch raises a SyntaxError
immediately; the three concrete templates exercise the mismatch, the
unclosed line report, and a nested success; and the final two conjuncts
exercise the single-brace tag dispatch (`peek()` at default offset reads
the current character): a lone `\x7b` opens a tag whose two-character
consume swallows the following character, and a lone `\x7b` with no
closer is a tag-level Unclosed-tag error. -/
theorem c7_block_validation :
    (∀ template toks, scanTokens (template.length + 1) template (1, 1) [] = .ok toks →
      ((tokenize template = .ok toks ↔ Nested (toks.map Token.type)) ∧
       (∀ top more, stackRun toks [] = some (top :: more) →
          tokenize template = .error (.syntaxError
            (S "Unclosed \x7b\x7b" ++ underscoreToSpace (tokenTypeStr top.1) ++
              S "\x7d\x7d block starting at line " ++ natToStr top.2.1)
            top.2.1 top.2.2
            (some (S "Add \x7b\x7bEND_" ++ underscoreToSpace (tokenTypeStr top.1) ++ S "\x7d\x7d")))) ∧
       (stackRun toks [] = none →
          ∃ m l c sug, tokenize template = .error (.syntaxError m l c sug)))) ∧
    tokenize (S "{{IF a}}{{END_FOR}}") = .error (.syntaxError
      (S "Unexpected \x7b\x7bEND_FOR\x7d\x7d without matching \x7b\x7bFOR\x7d\x7d") 1 9
      (some (S "Check template structure"))) ∧
    tokenize (S "x\n{{IF a}}y") = .error (.syntaxError
      (S "Unclosed \x7b\x7bIF\x7d\x7d block starting at line 2") 2 1
      (some (S "Add \x7b\x7bEND_IF\x7d\x7d"))) ∧
    (tokenize (S "{{IF a}}{{FOR xs AS x}}x{{END_FOR}}{{END_IF}}") = .ok
      [⟨.IF, S "IF a", 1, 1⟩, ⟨.FOR, S "FOR xs AS x", 1, 9⟩, ⟨.TEXT, S "x", 1, 24⟩,
       ⟨.END_FOR, S "END_FOR", 1, 25⟩, ⟨.END_IF, S "END_IF", 1, 36⟩, ⟨.EOF, [], 1, 46⟩] ∧
     Nested [.IF, .FOR, .TEXT, .END_FOR, .END_IF, .EOF]) ∧
    tokenize (S "\x7b IF a\x7d\x7d\x7b\x7bEND_IF\x7d\x7d") = .ok
      [⟨.IF, S "IF a", 1, 1⟩, ⟨.END_IF, S "END_IF", 1, 9⟩, ⟨.EOF, [], 1, 19⟩] ∧
    tokenize (S "\x7ba") = .error (.syntaxError (S "Unclosed tag \x7b\x7b...\x7d\x7d") 1 3
      (some (S "Add closing \x7d\x7d"))) := by
  refine ⟨?_, rfl, rfl, ⟨rfl, ?_⟩, rfl, rfl⟩
  · intro template toks hscan
    refine ⟨?_, ?_, ?_⟩
    · constructor
      · intro h
        simp only [tokenize, hscan, exceptBind_ok] at h
        cases hv : validateBlocks toks with
        | ok u =>
            have := (validateBlocksGo_ok_iff toks []).mp (by cases u; exact hv)
            simpa using nested_of_closes (by simpa using this)
        | error e =>
            rw [hv, exceptBind_err] at h
            cases h
      · intro h
        have hc : Closes (toks.map Token.type) [] := closes_of_nested h
        have hok : validateBlocksGo toks [] = .ok () :=
          (validateBlocksGo_ok_iff toks []).mpr (by simpa using hc)
        simp only [tokenize, hscan, exceptBind_ok]
        rw [show validateBlocks toks = .ok () from hok, exceptBind_ok]
        rfl
    · intro top more hsr
      have he := stackRun_unclosed toks [] top more hsr
      simp only [tokenize, hscan, exceptBind_ok]
      rw [show validateBlocks toks = _ from he, exceptBind_err]
    · intro hsr
      obtain ⟨m, l, c, sug, he⟩ := stackRun_none toks [] hsr
      refine ⟨m, l, c, sug, ?_⟩
      simp only [tokenize, hscan, exceptBind_ok]
      rw [show validateBlocks toks = _ from he, exceptBind_err]
  · exact Nested.block .IF .END_IF [.FOR, .TEXT, .END_FOR] [.EOF] rfl rfl
      (Nested.block .FOR .END_FOR [.TEXT] [] rfl rfl
        (Nested.pass .TEXT [] rfl rfl Nested.nil) Nested.nil)
      (Nested.pass .EOF [] rfl rfl Nested.nil)

/-- C7 witness: an unclosed IF reported with its starting line. -/
theorem c7_block_validation_witness :
    tokenize (S "{{IF ok}}") = .error (.syntaxError
      (S "Unclosed \x7b\x7bIF\x7d\x7d block starting at line 1") 1 1
      (some (S "Add \x7b\x7bEND_IF\x7d\x7d"))) := by
  have h := (c7_block_validation.1 (S "{{IF ok}}")
      [⟨.IF, S "IF ok", 1, 1⟩, ⟨.EOF, [], 1, 10⟩] rfl).2.1 (.IF, 1, 1) [] rfl
  exact h

/-- Net parenthesis depth of a string (opens minus closes). -/
def parenDepth (l : Str) : Int := (l.count '(' : Int) - (l.count ')' : Int)

/-- The spec's "top-level ` OR `": the running depth through position `i`
is zero and the four characters from `i` read ` OR `. -/
def isTopOrAt (e : Str) (i : Nat) : Bool :=
  parenDepth (e.take (i + 1)) = 0 && (e.drop i).take 4 = S " OR "

/-- The spec's "top-level ` AND `". -/
def isTopAndAt (e : Str) (i : Nat) : Bool :=
  parenDepth (e.take (i + 1)) = 0 && (e.drop i).take 5 = S " AND "

/-- Depth adds over concatenation. -/
theorem parenDepth_append (a b : Str) : parenDepth (a ++ b) = parenDepth a + parenDepth b := by
  simp only [parenDepth, List.count_append]
  push_cast
  ring

/-- One step of the scan's depth update. -/
def scanDepthStep (c : Char) (d : Int) : Int :=
  if c = '(' then d + 1 else if c = ')' then d - 1 else d

/-- The machine depth after char `i` is the depth of the `i + 1` prefix. -/
theorem scanDepthStep_take (e : Str) (i : Nat) (hi : i < e.length) :
    scanDepthStep (e.getD i ' ') (parenDepth (e.take i)) = parenDepth (e.take (i + 1)) := by
  have h1 : e.take (i + 1) = e.take i ++ [e.getD i ' '] := by
    rw [List.take_succ]
    congr 1
    rw [List.getElem?_eq_getElem hi, List.getD_eq_getElem e ' ' hi]
    rfl
  rw [h1, parenDepth_append]
  by_cases hL : e.getD i ' ' = '('
  · unfold scanDepthStep
    rw [hL, if_pos rfl]
    have h2 : parenDepth ['('] = 1 := by decide
    omega
  · by_cases hR : e.getD i ' ' = ')'
    · unfold scanDepthStep
      rw [hR, if_neg (by decide), if_pos rfl]
      have h2 : parenDepth [')'] = -1 := by decide
      omega
    · unfold scanDepthStep
      rw [if_neg hL, if_neg hR]
      generalize hg : e.getD i ' ' = c at hL hR ⊢
      have hc1 : [c].count '(' = 0 := by simp [List.count_cons, hL]
      have hc2 : [c].count ')' = 0 := by simp [List.count_cons, hR]
      have h2 : parenDepth [c] = 0 := by
        unfold parenDepth
        rw [hc1, hc2]
        rfl
      omega

/-- `o` is the rightmost position below `bound` satisfying `P` (or no
position satisfies `P` below `bound`). -/
def MaxPos (P : Nat → Bool) (bound : Nat) : Option Nat → Prop
  | none => ∀ q, q < bound → P q = false
  | some p => p < bound ∧ P p = true ∧ ∀ q, q < bound → P q = true → q ≤ p

/-- Top-level OR positions lie strictly before `length - 3`. -/
theorem isTopOrAt_lt {e : Str} {q : Nat} (h : isTopOrAt e q = true) : q < e.length - 3 := by
  simp only [isTopOrAt, Bool.and_eq_true, decide_eq_true_eq] at h
  have := slice_bound4 h.2
  omega

/-- Top-level AND positions lie strictly before `length - 3`. -/
theorem isTopAndAt_lt {e : Str} {q : Nat} (h : isTopAndAt e q = true) : q < e.length - 3 := by
  simp only [isTopAndAt, Bool.and_eq_true, decide_eq_true_eq] at h
  have := slice_bound5 h.2
  omega

/-- A rightmost witness below a larger bound is one below a smaller bound
that still covers every satisfying position. -/
theorem MaxPos_shrink {P : Nat → Bool} {b1 b2 : Nat} (hP : ∀ q, P q = true → q < b2)
    (hb : b2 ≤ b1) {o : Option Nat} (h : MaxPos P b1 o) : MaxPos P b2 o := by
  cases o with
  | none => exact fun q hq => h q (by omega)
  | some p =>
      obtain ⟨h1, h2, h3⟩ := h
      exact ⟨hP p h2, h2, fun q hq hPq => h3 q (by omega) hPq⟩

/-- One unfolding of the scan loop below the bound, with the state updates
spelled out. -/
theorem logicalScanAux_step (e : Str) (fuel i : Nat) (d : Int) (o a : Option Nat)
    (hi : i < e.length - 3) :
    logicalScanAux e (fuel + 1) i d o a =
      logicalScanAux e fuel (i + 1) (scanDepthStep (e.getD i ' ') d)
        (if scanDepthStep (e.getD i ' ') d = 0 && (e.drop i).take 4 = S " OR "
          then some i else o)
        (if (scanDepthStep (e.getD i ' ') d = 0 && (e.drop i).take 5 = S " AND ") &&
            (if scanDepthStep (e.getD i ' ') d = 0 && (e.drop i).take 4 = S " OR "
              then some i else o) = none
          then some i else a) := by
  rw [logicalScanAux, if_pos hi]
  rfl

/-- Invariant proof for the scan: starting from a state whose recorded
positions are the rightmost ones below `i`, the loop returns the rightmost
top-level OR overall, and — when no OR exists — the rightmost top-level
AND. -/
theorem logicalScanAux_spec (e : Str) : ∀ (fuel i : Nat) (orPos andPos : Option Nat),
    e.length - 3 - i ≤ fuel →
    MaxPos (isTopOrAt e) i orPos →
    (orPos = none → MaxPos (isTopAndAt e) i andPos) →
    MaxPos (isTopOrAt e) (e.length - 3)
      (logicalScanAux e fuel i (parenDepth (e.take i)) orPos andPos).1 ∧
    ((logicalScanAux e fuel i (parenDepth (e.take i)) orPos andPos).1 = none →
      MaxPos (isTopAndAt e) (e.length - 3)
        (logicalScanAux e fuel i (parenDepth (e.take i)) orPos andPos).2) := by
  intro fuel
  induction fuel with
  | zero =>
      intro i orPos andPos hfuel hor hand
      constructor
      · exact MaxPos_shrink (fun q hq => isTopOrAt_lt hq) (by omega) hor
      · intro h0
        exact MaxPos_shrink (fun q hq => isTopAndAt_lt hq) (by omega) (hand h0)
  | succ fuel ih =>
      intro i orPos andPos hfuel hor hand
      by_cases hi : i < e.length - 3
      · rw [logicalScanAux_step e fuel i _ orPos andPos hi]
        rw [scanDepthStep_take e i (by omega)]
        rw [show (parenDepth (e.take (i + 1)) = 0 && (e.drop i).take 4 = S " OR ")
            = isTopOrAt e i from rfl]
        rw [show (parenDepth (e.take (i + 1)) = 0 && (e.drop i).take 5 = S " AND ")
            = isTopAndAt e i from rfl]
        by_cases hat : isTopOrAt e i = true
        · rw [if_pos hat]
          rw [if_neg (show ¬((isTopAndAt e i &&
              ((some i : Option Nat) = none)) = true) from by simp)]
          exact ih (i + 1) (some i) andPos (by omega)
            ⟨Nat.lt_succ_self i, hat, fun q hq _ => by omega⟩
            (fun h => nomatch h)
        · have hatf : isTopOrAt e i = false := by
            cases hbv : isTopOrAt e i with
            | false => rfl
            | true => exact absurd hbv hat
          rw [if_neg hat]
          by_cases hoe : orPos = none
          · subst hoe
            by_cases hata : isTopAndAt e i = true
            · rw [if_pos (show (isTopAndAt e i && ((none : Option Nat) = none)) = true
                from by simp [hata])]
              apply ih (i + 1) none (some i) (by omega)
              · intro q hq
                rcases Nat.lt_succ_iff_lt_or_eq.mp hq with h | h
                · exact hor q h
                · subst h; exact hatf
              · intro _
                exact ⟨Nat.lt_succ_self i, hata, fun q hq _ => by omega⟩
            · have hataf : isTopAndAt e i = false := by
                cases hbv : isTopAndAt e i with
                | false => rfl
                | true => exact absurd hbv hata
              rw [if_neg (show ¬((isTopAndAt e i && ((none : Option Nat) = none)) = true)
                from by simp [hataf])]
              apply ih (i + 1) none andPos (by omega)
              · intro q hq
                rcases Nat.lt_succ_iff_lt_or_eq.mp hq with h | h
                · exact hor q h
                · subst h; exact hatf
              · intro _
                have hbase := hand rfl
                cases andPos with
                | none =>
                    intro q hq
                    rcases Nat.lt_succ_iff_lt_or_eq.mp hq with h | h
                    · exact hbase q h
                    · subst h; exact hataf
                | some pa =>
                    obtain ⟨h1, h2, h3⟩ := hbase
                    refine ⟨by omega, h2, fun q hq hPq => ?_⟩
                    rcases Nat.lt_succ_iff_lt_or_eq.mp hq with h | h
                    · exact h3 q h hPq
                    · subst h; exact absurd hPq hata
          · rw [if_neg (show ¬((isTopAndAt e i && (orPos = none)) = true) from by
              simp only [Bool.and_eq_true, decide_eq_true_eq]
              rintro ⟨-, h⟩
              exact hoe h)]
            apply ih (i + 1) orPos andPos (by omega)
            · cases orPos with
              | none => exact absurd rfl hoe
              | some pp =>
                  obtain ⟨h1, h2, h3⟩ := hor
                  refine ⟨by omega, h2, fun q hq hPq => ?_⟩
                  rcases Nat.lt_succ_iff_lt_or_eq.mp hq with h | h
                  · exact h3 q h hPq
                  · subst h; exact absurd hPq hat
            · intro h
              exact absurd h hoe
      · rw [logicalScanAux, if_neg hi]
        constructor
        · exact MaxPos_shrink (fun q hq => isTopOrAt_lt hq) (by omega) hor
        · intro h0
          exact MaxPos_shrink (fun q hq => isTopAndAt_lt hq) (by omega) (hand h0)

/-- `logicalScan` returns the rightmost top-level ` OR ` position, and —
exactly when there is none — the rightmost top-level ` AND ` position. -/
theorem logicalScan_spec (e : Str) :
    MaxPos (isTopOrAt e) (e.length - 3) (logicalScan e).1 ∧
    ((logicalScan e).1 = none →
      MaxPos (isTopAndAt e) (e.length - 3) (logicalScan e).2) := by
  have h := logicalScanAux_spec e (e.length + 1) 0 none none (by omega)
    (fun q hq => absurd hq (Nat.not_lt_zero q))
    (fun _ q hq => absurd hq (Nat.not_lt_zero q))
  rw [show logicalScan e
      = logicalScanAux e (e.length + 1) 0 (parenDepth (e.take 0)) none none from rfl]
  exact h

/-- A balanced-parens check passing from a nonnegative depth keeps every
prefix depth nonnegative. -/
theorem balancedAux_prefix_nonneg : ∀ (l : Str) (d : Int), isBalancedParensAux l d = true →
    0 ≤ d → ∀ k, 0 ≤ d + parenDepth (l.take k) := by
  intro l
  induction l with
  | nil =>
      intro d h hd k
      simpa [parenDepth] using hd
  | cons c rest ih =>
      intro d h hd k
      rw [isBalancedParensAux] at h
      by_cases hneg : (if c = '(' then d + 1 else if c = ')' then d - 1 else d) < 0
      · rw [if_pos hneg] at h
        cases h
      · rw [if_neg hneg] at h
        cases k with
        | zero => simpa [parenDepth] using hd
        | succ k =>
            have hih := ih (if c = '(' then d + 1 else if c = ')' then d - 1 else d)
              h (by omega) k
            have hpd : parenDepth ((c :: rest).take (k + 1)) =
                parenDepth [c] + parenDepth (rest.take k) := by
              rw [List.take_succ_cons,
                show (c :: rest.take k) = [c] ++ rest.take k from rfl, parenDepth_append]
            have hc : parenDepth [c] =
                (if c = '(' then d + 1 else if c = ')' then d - 1 else d) - d := by
              by_cases h1 : c = '('
              · rw [h1, if_pos rfl]
                have : parenDepth ['('] = 1 := by decide
                omega
              · by_cases h2 : c = ')'
                · rw [h2, if_neg (by decide), if_pos rfl]
                  have : parenDepth [')'] = -1 := by decide
                  omega
                · rw [if_neg h1, if_neg h2]
                  have : parenDepth [c] = 0 := by
                    simp [parenDepth, List.count_cons, h1, h2]
                  omega
            omega

/-- Prefix depths of a balanced string are nonnegative. -/
theorem balanced_take_nonneg {l : Str} (h : isBalancedParens l = true) (k : Nat) :
    0 ≤ parenDepth (l.take k) := by
  have := balancedAux_prefix_nonneg l 0 h le_rfl k
  simpa using this

/-- The head of a nonempty matched slice is the character at its start. -/
theorem slice_head {e : Str} {i n : Nat} {c : Char} {s : Str}
    (h : (e.drop i).take (n + 1) = c :: s) : e.getD i ' ' = c := by
  have hlen : i < e.length := by
    have h2 := congrArg List.length h
    simp only [List.length_take, List.length_drop, List.length_cons] at h2
    omega
  rw [List.drop_eq_getElem_cons hlen, List.take_succ_cons] at h
  rw [List.getD_eq_getElem e ' ' hlen]
  exact (List.cons.inj h).1

/-- Inside a one-deep wrapper whose prefix has no spaces and whose body is
balanced, no space character sits at depth zero, so no top-level ` OR ` or
` AND ` exists. -/
theorem wrapped_no_top_space (t : Str) (k : Nat)
    (hpre : ∀ j, j < k → t.getD j ' ' ≠ ' ')
    (hdep : parenDepth (t.take k) = 1)
    (hbal : isBalancedParens ((t.drop k).dropLast) = true)
    (i : Nat) (hsp : t.getD i ' ' = ' ') (hfit : i + 4 ≤ t.length) :
    ¬ parenDepth (t.take (i + 1)) = 0 := by
  intro h0
  by_cases hik : i < k
  · exact hpre i hik hsp
  · push_neg at hik
    have hsplit : t.take (i + 1) = t.take k ++ (t.drop k).take (i + 1 - k) := by
      rw [show i + 1 = k + (i + 1 - k) from by omega, List.take_add]
      have h3 : k + (i + 1 - k) - k = i + 1 - k := by omega
      rw [h3]
    have hinner : (t.drop k).take (i + 1 - k) = ((t.drop k).dropLast).take (i + 1 - k) := by
      rw [List.dropLast_eq_take, List.take_take]
      rw [min_eq_left (by simp only [List.length_drop]; omega)]
    rw [hsplit, parenDepth_append, hdep, hinner] at h0
    have := balanced_take_nonneg hbal (i + 1 - k)
    omega

/-- No top-level logical operator under a matching `NOT(...)` wrapper. -/
theorem NOT_wrap_no_top {t : Str} (hs : startsWithC t (S "NOT(") = true)
    (hb : isBalancedParens ((t.drop 4).dropLast) = true) (q : Nat) :
    isTopOrAt t q = false ∧ isTopAndAt t q = false := by
  have hs' : t.take 4 = S "NOT(" := by
    have := of_decide_eq_true hs
    simpa [S] using this
  have ht : t = S "NOT(" ++ t.drop 4 := by
    conv_lhs => rw [← List.take_append_drop 4 t]
    rw [hs']
  have hpre : ∀ j, j < 4 → t.getD j ' ' ≠ ' ' := by
    intro j hj
    rw [ht, List.getD_append]
    · interval_cases j <;> decide
    · simp [S]
      omega
  have hdep : parenDepth (t.take 4) = 1 := by
    rw [hs']
    decide
  constructor
  · cases hv : isTopOrAt t q with
    | false => rfl
    | true =>
        exfalso
        simp only [isTopOrAt, Bool.and_eq_true, decide_eq_true_eq] at hv
        exact wrapped_no_top_space t 4 hpre hdep hb q (slice_head hv.2)
          (slice_bound4 hv.2) hv.1
  · cases hv : isTopAndAt t q with
    | false => rfl
    | true =>
        exfalso
        simp only [isTopAndAt, Bool.and_eq_true, decide_eq_true_eq] at hv
        exact wrapped_no_top_space t 4 hpre hdep hb q (slice_head hv.2)
          (by have := slice_bound5 hv.2; omega) hv.1

/-- No top-level logical operator under a matching `(...)` wrapper. -/
theorem paren_wrap_no_top {t : Str} (hs : startsWithC t (S "(") = true)
    (hb : isBalancedParens ((t.drop 1).dropLast) = true) (q : Nat) :
    isTopOrAt t q = false ∧ isTopAndAt t q = false := by
  have hs' : t.take 1 = S "(" := by
    have := of_decide_eq_true hs
    simpa [S] using this
  have ht : t = S "(" ++ t.drop 1 := by
    conv_lhs => rw [← List.take_append_drop 1 t]
    rw [hs']
  have hpre : ∀ j, j < 1 → t.getD j ' ' ≠ ' ' := by
    intro j hj
    rw [ht, List.getD_append]
    · interval_cases j <;> decide
    · simp [S]
      omega
  have hdep : parenDepth (t.take 1) = 1 := by
    rw [hs']
    decide
  constructor
  · cases hv : isTopOrAt t q with
    | false => rfl
    | true =>
        exfalso
        simp only [isTopOrAt, Bool.and_eq_true, decide_eq_true_eq] at hv
        exact wrapped_no_top_space t 1 hpre hdep hb q (slice_head hv.2)
          (slice_bound4 hv.2) hv.1
  · cases hv : isTopAndAt t q with
    | false => rfl
    | true =>
        exfalso
        simp only [isTopAndAt, Bool.and_eq_true, decide_eq_true_eq] at hv
        exact wrapped_no_top_space t 1 hpre hdep hb q (slice_head hv.2)
          (by have := slice_bound5 hv.2; omega) hv.1

/-- When neither wrapper branch fires and the scan finds an OR position,
`evaluateCondition` splits there. -/
theorem evaluateCondition_or_split (cond : Str) (vars : VarMap) (p : Nat) (a : Option Nat)
    (hN : ¬(startsWithC (jsTrim cond) (S "NOT(") = true ∧
        endsWithC (jsTrim cond) (S ")") = true ∧
        isBalancedParens (((jsTrim cond).drop 4).dropLast) = true))
    (hP : ¬(startsWithC (jsTrim cond) (S "(") = true ∧
        endsWithC (jsTrim cond) (S ")") = true ∧
        isBalancedParens (((jsTrim cond).drop 1).dropLast) = true))
    (hLS : logicalScan (jsTrim cond) = (some p, a)) :
    evaluateCondition cond vars = (do
      let b ← evaluateCondition (jsTrim ((jsTrim cond).take p)) vars
      if b then pure true
      else evaluateCondition (jsTrim ((jsTrim cond).drop (p + 4))) vars) := by
  conv_lhs => rw [evaluateCondition]
  simp only [dif_neg hN, dif_neg hP]
  split
  · rename_i orPos snd heq
    rw [hLS] at heq
    injection heq with h1 h2
    injection h1 with h1
    subst h1
    rfl
  · rename_i andPos heq
    rw [hLS] at heq
    injection heq with h1 h2
    cases h1
  · rename_i heq
    rw [hLS] at heq
    injection heq with h1 h2
    cases h1

/-- When neither wrapper branch fires and the scan finds no OR but an AND
position, `evaluateCondition` splits there. -/
theorem evaluateCondition_and_split (cond : Str) (vars : VarMap) (p : Nat)
    (hN : ¬(startsWithC (jsTrim cond) (S "NOT(") = true ∧
        endsWithC (jsTrim cond) (S ")") = true ∧
        isBalancedParens (((jsTrim cond).drop 4).dropLast) = true))
    (hP : ¬(startsWithC (jsTrim cond) (S "(") = true ∧
        endsWithC (jsTrim cond) (S ")") = true ∧
        isBalancedParens (((jsTrim cond).drop 1).dropLast) = true))
    (hLS : logicalScan (jsTrim cond) = (none, some p)) :
    evaluateCondition cond vars = (do
      let b ← evaluateCondition (jsTrim ((jsTrim cond).take p)) vars
      if b then evaluateCondition (jsTrim ((jsTrim cond).drop (p + 5))) vars
      else pure false) := by
  conv_lhs => rw [evaluateCondition]
  simp only [dif_neg hN, dif_neg hP]
  split
  · rename_i orPos snd heq
    rw [hLS] at heq
    injection heq with h1 h2
    cases h1
  · rename_i andPos heq
    rw [hLS] at heq
    injection heq with h1 h2
    injection h2 with h2
    subst h2
    rfl
  · rename_i heq
    rw [hLS] at heq
    injection heq with h1 h2
    cases h2

/-- C3: on a trimmed condition with a top-level (depth-0) ` OR `,
`evaluateCondition` splits at the rightmost such occurrence into a
short-circuit OR of the recursively evaluated halves; a top-level ` AND `
split (also rightmost) happens only when no top-level ` OR ` exists. -/
theorem c3_or_and_split :
    (∀ (cond : Str) (vars : VarMap) (q : Nat), isTopOrAt (jsTrim cond) q = true →
      ∃ p, isTopOrAt (jsTrim cond) p = true ∧
        (∀ r, isTopOrAt (jsTrim cond) r = true → r ≤ p) ∧
        evaluateCondition cond vars = (do
          let b ← evaluateCondition (jsTrim ((jsTrim cond).take p)) vars
          if b then pure true
          else evaluateCondition (jsTrim ((jsTrim cond).drop (p + 4))) vars)) ∧
    (∀ (cond : Str) (vars : VarMap) (q : Nat),
      (∀ r, isTopOrAt (jsTrim cond) r = false) →
      isTopAndAt (jsTrim cond) q = true →
      ∃ p, isTopAndAt (jsTrim cond) p = true ∧
        (∀ r, isTopAndAt (jsTrim cond) r = true → r ≤ p) ∧
        evaluateCondition cond vars = (do
          let b ← evaluateCondition (jsTrim ((jsTrim cond).take p)) vars
          if b then evaluateCondition (jsTrim ((jsTrim cond).drop (p + 5))) vars
          else pure false)) := by
  constructor
  · intro cond vars q hq
    obtain ⟨hspec1, hspec2⟩ := logicalScan_spec (jsTrim cond)
    rcases hLS : logicalScan (jsTrim cond) with ⟨o, a⟩
    cases o with
    | none =>
        exfalso
        rw [hLS] at hspec1
        have := hspec1 q (isTopOrAt_lt hq)
        rw [hq] at this
        cases this
    | some p =>
        rw [hLS] at hspec1
        obtain ⟨hpb, hptrue, hmax⟩ := hspec1
        refine ⟨p, hptrue, fun r hr => hmax r (isTopOrAt_lt hr) hr, ?_⟩
        have hN : ¬(startsWithC (jsTrim cond) (S "NOT(") = true ∧
            endsWithC (jsTrim cond) (S ")") = true ∧
            isBalancedParens (((jsTrim cond).drop 4).dropLast) = true) := by
          rintro ⟨hs, -, hb⟩
          have hf := (NOT_wrap_no_top hs hb p).1
          rw [hptrue] at hf
          cases hf
        have hP : ¬(startsWithC (jsTrim cond) (S "(") = true ∧
            endsWithC (jsTrim cond) (S ")") = true ∧
            isBalancedParens (((jsTrim cond).drop 1).dropLast) = true) := by
          rintro ⟨hs, -, hb⟩
          have hf := (paren_wrap_no_top hs hb p).1
          rw [hptrue] at hf
          cases hf
        exact evaluateCondition_or_split cond vars p a hN hP hLS
  · intro cond vars q hnoOr hq
    obtain ⟨hspec1, hspec2⟩ := logicalScan_spec (jsTrim cond)
    rcases hLS : logicalScan (jsTrim cond) with ⟨o, a⟩
    cases o with
    | some p =>
        exfalso
        rw [hLS] at hspec1
        obtain ⟨-, hptrue, -⟩ := hspec1
        rw [hnoOr p] at hptrue
        cases hptrue
    | none =>
        rw [hLS] at hspec2
        have hands := hspec2 rfl
        cases a with
        | none =>
            exfalso
            have := hands q (isTopAndAt_lt hq)
            rw [hq] at this
            cases this
        | some p =>
            obtain ⟨hpb, hptrue, hmax⟩ := hands
            refine ⟨p, hptrue, fun r hr => hmax r (isTopAndAt_lt hr) hr, ?_⟩
            have hN : ¬(startsWithC (jsTrim cond) (S "NOT(") = true ∧
                endsWithC (jsTrim cond) (S ")") = true ∧
                isBalancedParens (((jsTrim cond).drop 4).dropLast) = true) := by
              rintro ⟨hs, -, hb⟩
              have hf := (NOT_wrap_no_top hs hb p).2
              rw [hptrue] at hf
              cases hf
            have hP : ¬(startsWithC (jsTrim cond) (S "(") = true ∧
                endsWithC (jsTrim cond) (S ")") = true ∧
                isBalancedParens (((jsTrim cond).drop 1).dropLast) = true) := by
              rintro ⟨hs, -, hb⟩
              have hf := (paren_wrap_no_top hs hb p).2
              rw [hptrue] at hf
              cases hf
            exact evaluateCondition_and_split cond vars p hN hP hLS

/-- C3 witness: `a OR b AND c` splits at its (rightmost, only) top-level
OR; `a AND b` splits at its AND since no top-level OR exists. -/
theorem c3_or_and_split_witness :
    (∃ p, isTopOrAt (S "a OR b") p = true ∧
      (∀ r, isTopOrAt (S "a OR b") r = true → r ≤ p) ∧
      evaluateCondition (S "a OR b") [(S "a", .vNum 1)] = (do
        let b ← evaluateCondition (jsTrim ((S "a OR b").take p)) [(S "a", .vNum 1)]
        if b then pure true
        else evaluateCondition (jsTrim ((S "a OR b").drop (p + 4))) [(S "a", .vNum 1)])) ∧
    (∃ p, isTopAndAt (S "a AND b") p = true ∧
      (∀ r, isTopAndAt (S "a AND b") r = true → r ≤ p) ∧
      evaluateCondition (S "a AND b") [(S "a", .vNum 1)] = (do
        let b ← evaluateCondition (jsTrim ((S "a AND b").take p)) [(S "a", .vNum 1)]
        if b then evaluateCondition (jsTrim ((S "a AND b").drop (p + 5))) [(S "a", .vNum 1)]
        else pure false)) := by
  constructor
  · exact c3_or_and_split.1 (S "a OR b") [(S "a", .vNum 1)] 1 rfl
  · refine c3_or_and_split.2 (S "a AND b") [(S "a", .vNum 1)] 1 ?_ rfl
    intro r
    rw [show jsTrim (S "a AND b") = S "a AND b" from rfl]
    by_cases hr : r < 4
    · interval_cases r <;> rfl
    · cases hv : isTopOrAt (S "a AND b") r with
      | false => rfl
      | true =>
          exfalso
          have h1 := isTopOrAt_lt hv
          have h2 : (S "a AND b").length = 7 := rfl
          omega

end TR